import Mathlib

/-!
Verification development for the wind-route-sim repository.

The repository combines a wind/elevation "suffer score" engine for cycling
routes (src/App.tsx) with a concurrency-managed fetch/cache layer for the
Open-Meteo wind provider (src/hooks/useWindData.ts, the windArrows module,
and src/utils/openMeteo.ts).

Modelling conventions used throughout this file:
* JavaScript numbers are modelled as `ℚ` wherever the code only performs
  rational arithmetic (rounding, cache keys, decoding, grid interpolation)
  and as `ℝ` where the code calls transcendental functions
  (`Math.cos`, `Math.atan2`, ... in the scoring engine).  The one place
  where an actual JavaScript `NaN` is observable (`buildGridPoints` with
  `rows = 1` or `cols = 1`) uses an explicit nan-carrying number type.
* A JavaScript `Map` is modelled as a function into `Option`, which is
  faithful because `Map.set` overwrites, `Map.delete` removes, and keys
  are unique.
* The single-threaded cooperative concurrency of the browser runtime is
  modelled by small-step transition systems: each step corresponds to a
  block of synchronous code between two suspension points, which the JS
  event loop runs atomically.
-/

/-! ## JavaScript numeric primitives (exact, over ℚ) -/

/-- `Math.round x` in JavaScript: round to nearest integer, ties toward +∞. -/
def jsRound (q : ℚ) : ℤ := ⌊q + 1/2⌋

/-- `x.toFixed(d)` produces the decimal representation of `x` rounded to `d`
decimal places, ties away from zero.  We model the rounded value as the
integer `x * 10^d` rounded that way; two numbers get the same `toFixed(d)`
string exactly when these integers agree (the `"-0.00000"` versus
`"0.00000"` distinction for negative values within half an ulp of zero is
not modelled; in the repository those strings are only used as map keys). -/
def jsFixed (d : ℕ) (q : ℚ) : ℤ :=
  if 0 ≤ q then ⌊q * 10 ^ d + 1/2⌋ else -⌊-q * 10 ^ d + 1/2⌋

/-! ## Open-Meteo response decoding (useWindData.ts / windArrows.ts)

The provider's success body is a JSON object with parallel arrays
`hourly.time`, `hourly.windspeed_10m`, `hourly.winddirection_10m`.
Indexing past the end of a JS array yields `undefined`; the repository
never does that for well-formed (equal-length) responses, and we model
the out-of-range read as `0` (the theorems that depend on array entries
carry equal-length or range hypotheses mirroring the provider contract). -/

structure OMHourly where
  time : List String
  windspeed_10m : List ℚ
  winddirection_10m : List ℚ
deriving DecidableEq

structure HourlyWindEntry where
  time : String
  speed_kmh : ℚ
  direction_deg : ℚ
deriving DecidableEq

/-- The decode step of `fetchWindForPoint` (useWindData.ts lines 62-66):
`times.map((t, i) => ({ time: t, speed_kmh: Math.round(speeds[i] * 10) / 10,
direction_deg: Math.round(dirs[i]) }))`. -/
def decodeEntries (h : OMHourly) : List HourlyWindEntry :=
  (List.range h.time.length).map (fun i =>
    { time := h.time.getD i ""
      speed_kmh := (jsRound (h.windspeed_10m.getD i 0 * 10) : ℚ) / 10
      direction_deg := (jsRound (h.winddirection_10m.getD i 0) : ℚ) })

/-- Failure modes of the fetch path: HTTP 429 and limit-reason bodies both
become the rate-limited condition; `httpFailed` is any other non-ok status;
`noWindData` is the `'No wind data available for this date'` throw;
`networkDown` stands for a rejected `fetch` / thrown decode (e.g. accessing
`.hourly` of a null json). -/
inductive FetchErr where
  | rateLimited
  | httpFailed (status : ℕ)
  | noWindData
  | networkDown
deriving DecidableEq

/-! ## handleOpenMeteoResponse (src/utils/openMeteo.ts)

`handleOpenMeteoResponse` inspects the HTTP response, dispatches
`wind-rate-limit` CustomEvents on `window` (modelled as the list of
dispatched `detail` booleans, in order), and either returns the parsed
json or throws. -/

/-- The fields of the parsed json that `handleOpenMeteoResponse` and the
fetch chain read: the `error` flag (truthiness), the `reason` string when
present as a string, and the `hourly` payload when present. -/
structure OMJson where
  error : Bool
  reason : Option String
  hourly : Option OMHourly
deriving DecidableEq

/-- Result of `JSON.parse(await r.text())`: the text may fail to parse,
parse to a falsy value (`null`, ...), or parse to an object. -/
inductive BodyParse where
  | malformed
  | nullish
  | obj (j : OMJson)
deriving DecidableEq

structure HttpResponse where
  status : ℕ
  body : BodyParse
deriving DecidableEq

/-- `r.ok` in JavaScript: status in the range 200-299. -/
def respOk (r : HttpResponse) : Bool := 200 ≤ r.status && r.status < 300

/-- `needle` occurs as a contiguous substring of `hay` (used for
`String.prototype.includes`). -/
def subSeqAt (needle hay : List Char) : Bool :=
  needle.isPrefixOf hay ||
    (match hay with
     | [] => false
     | _ :: t => subSeqAt needle t)

/-- The `json && json.error && json.reason && typeof json.reason === 'string'
&& json.reason.toLowerCase().includes('limit')` test of openMeteo.ts. -/
def limitFlag (j : OMJson) : Bool :=
  j.error &&
    (match j.reason with
     | some s => s ≠ "" && subSeqAt "limit".toList s.toLower.toList
     | none => false)

/-- Model of `handleOpenMeteoResponse` (src/utils/openMeteo.ts).  The first
component is the ordered list of `wind-rate-limit` event details dispatched
while handling this response; the second is the returned json
(`Option OMJson`, `none` for a returned `null`) or the thrown error. -/
def handleOpenMeteoResponse (r : HttpResponse) :
    List Bool × Except FetchErr (Option OMJson) :=
  if r.status = 429 then ([true], .error .rateLimited)
  else
    match r.body with
    | .malformed =>
      if respOk r then ([], .ok none) else ([], .error (.httpFailed r.status))
    | .nullish =>
      if respOk r then ([false], .ok none) else ([], .error (.httpFailed r.status))
    | .obj j =>
      if limitFlag j then ([true], .error .rateLimited)
      else if respOk r then ([false], .ok (some j))
      else ([], .error (.httpFailed r.status))

/-- A response signals the rate-limited condition: HTTP 429, or a body whose
`error`/`reason` fields indicate a limit (spec section 6). -/
def rateLimitedResp (r : HttpResponse) : Bool :=
  r.status = 429 ||
    (match r.body with
     | .obj j => limitFlag j
     | _ => false)

/-- A response that `handleOpenMeteoResponse` completes successfully with a
dispatched `detail: false` event: not rate-limited, ok status, and a body
that `JSON.parse` accepted. -/
def parsedOkResp (r : HttpResponse) : Bool :=
  !rateLimitedResp r && respOk r &&
    (match r.body with
     | .malformed => false
     | _ => true)

/-- All `wind-rate-limit` event details dispatched over a sequence of
completed responses, in order. -/
def emittedDetails (rs : List HttpResponse) : List Bool :=
  (rs.map (fun r => (handleOpenMeteoResponse r).1)).flatten

/-- Modelled from the spec (section 6): "A side-channel notification
('rate-limit state changed') must be emitted whenever a request crosses into
or out of the rate-limited condition".  The notifications such a design
would emit over a sequence of responses: a boolean rate-limited state starts
at `false` and an event is emitted exactly when a response's rate-limited
condition differs from the current state. -/
def specTransitionDetails (rs : List HttpResponse) : List Bool :=
  (rs.foldl
    (fun (acc : List Bool × Bool) r =>
      if rateLimitedResp r = acc.2 then acc
      else (acc.1 ++ [rateLimitedResp r], rateLimitedResp r))
    ([], false)).1

/-! ## Point-level wind cache (useWindData.ts lines 16-84)

`fetchWindForPoint` keeps two module-level maps: `cache` (key → decoded
series) and `inflight` (key → pending promise).  We model the pending
promise by a numeric request id, and model separately the multiset of
network requests currently outstanding (`active`, a list of keys), which
is what "in-flight network request" means physically.  Each transition of
the system below is one synchronous block of `fetchWindForPoint` or of the
promise continuation that runs when the network request settles. -/

/-- A cache key `lat.toFixed(4),lon.toFixed(4),date` is determined by the
two rounded coordinates and the date string. -/
abbrev CacheKey := ℤ × ℤ × String

/-- `cacheKey` of useWindData.ts: latitude and longitude rounded to 4
decimal places, plus the date. -/
def windCacheKey (lat lon : ℚ) (date : String) : CacheKey :=
  (jsFixed 4 lat, jsFixed 4 lon, date)

structure FetchSys where
  cache : CacheKey → Option (List HourlyWindEntry)
  inflight : CacheKey → Option ℕ
  active : List CacheKey

/-- What a single call to `fetchWindForPoint` did: returned a cached series,
joined the pending request with id `r`, or issued a new network request with
id `r`. -/
inductive CallOutcome where
  | hit (s : List HourlyWindEntry)
  | joined (r : ℕ)
  | issued (r : ℕ)
deriving DecidableEq

/-- The synchronous prefix of `fetchWindForPoint` (lines 40-48 plus the
`inflight.set`/`fetch` on lines 52/82): check the cache, then the in-flight
map, and otherwise register a fresh in-flight request and issue the network
request.  `fresh` is the id of the promise created if one is. -/
def fetchCall (st : FetchSys) (k : CacheKey) (fresh : ℕ) : FetchSys × CallOutcome :=
  match st.cache k with
  | some s => (st, .hit s)
  | none =>
    match st.inflight k with
    | some r => (st, .joined r)
    | none =>
      (⟨st.cache,
        fun k' => if k' = k then some fresh else st.inflight k',
        k :: st.active⟩,
       .issued fresh)

/-- Remove the first occurrence of `k` (the settled network request). -/
def eraseKey : List CacheKey → CacheKey → List CacheKey
  | [], _ => []
  | x :: xs, k => if x = k then xs else x :: eraseKey xs k

/-- The value the shared promise of `fetchWindForPoint` settles with, as a
function of what the network/handler produced: `.ok none` is a null json
(accessing `.hourly` throws), an empty decoded series throws
`'No wind data available for this date'`, and otherwise the decoded entries
are the resolution value. -/
def chainResult (u : Except FetchErr (Option OMJson)) :
    Except FetchErr (List HourlyWindEntry) :=
  match u with
  | .error e => .error e
  | .ok none => .error .networkDown
  | .ok (some j) =>
    match j.hourly with
    | none => .error .networkDown
    | some h =>
      if decodeEntries h = [] then .error .noWindData else .ok (decodeEntries h)

/-- The continuation of `fetchWindForPoint`'s promise chain (lines 54-80),
run when the network request for `k` settles with upstream result `u`:
on success the series is cached and the in-flight marker removed; on any
failure (including the empty-series throw) only the in-flight marker is
removed.  In both cases the network request is no longer outstanding. -/
def completeFetch (st : FetchSys) (k : CacheKey)
    (u : Except FetchErr (Option OMJson)) : FetchSys :=
  match chainResult u with
  | .ok entries =>
    ⟨fun k' => if k' = k then some entries else st.cache k',
     fun k' => if k' = k then none else st.inflight k',
     eraseKey st.active k⟩
  | .error _ =>
    ⟨st.cache,
     fun k' => if k' = k then none else st.inflight k',
     eraseKey st.active k⟩

/-- Events of the point-cache system: a caller invokes `fetchWindForPoint`
(with the fresh promise id it would register), or an outstanding network
request for `k` settles with upstream result `u`. -/
inductive FetchEv where
  | call (k : CacheKey) (fresh : ℕ)
  | settle (k : CacheKey) (u : Except FetchErr (Option OMJson))

/-- One event of the point-cache system; a settle event is only valid for a
key with an outstanding network request. -/
def fetchStep (st : FetchSys) : FetchEv → Option FetchSys
  | .call k fresh => some (fetchCall st k fresh).1
  | .settle k u =>
    if k ∈ st.active then some (completeFetch st k u) else none

/-- Run a sequence of events from a state. -/
def runFetch (st : FetchSys) : List FetchEv → Option FetchSys
  | [] => some st
  | e :: es =>
    match fetchStep st e with
    | some st' => runFetch st' es
    | none => none

/-- The page-load initial state: both maps empty, nothing outstanding. -/
def initFetch : FetchSys := ⟨fun _ => none, fun _ => none, []⟩

/-- Number of outstanding network requests for key `k`. -/
def keyCount (l : List CacheKey) (k : CacheKey) : ℕ :=
  l.countP (fun x => x = k)

/-! ## Arrow-grid wind cache (windArrows.ts) -/

structure ArrowWindEntry where
  speed_kmh : ℚ
  direction_deg : ℚ
deriving DecidableEq

/-- `arrowKey` of windArrows.ts: 2-decimal rounding of both coordinates. -/
def arrowKeyOf (lat lng : ℚ) (date : String) : CacheKey :=
  (jsFixed 2 lat, jsFixed 2 lng, date)

/-- The decode loop of `loadArrowPoint` (windArrows.ts lines 254-261):
`for (i = 0; i < times.length && entries.length < 24; i++) push {...};
while (entries.length < 24) push null` — at most the first 24 decoded
entries, padded with nulls to exactly 24. -/
def arrowEntries (h : OMHourly) : List (Option ArrowWindEntry) :=
  ((List.range h.time.length).map (fun i =>
      some ({ speed_kmh := (jsRound (h.windspeed_10m.getD i 0 * 10) : ℚ) / 10
              direction_deg := (jsRound (h.winddirection_10m.getD i 0) : ℚ) }
        : ArrowWindEntry))).take 24
    ++ List.replicate (24 - min h.time.length 24) none

structure ArrowSys where
  arrowCache : CacheKey → Option (List (Option ArrowWindEntry))
  arrowInflight : CacheKey → Option ℕ
  active : List CacheKey

/-- What a single call to `loadArrowPoint` did: returned immediately because
the key is cached, awaited the pending request, or issued a new one. -/
inductive ArrowOutcome where
  | cachedNoop
  | joined (r : ℕ)
  | issued (r : ℕ)
deriving DecidableEq

/-- The synchronous prefix of `loadArrowPoint` (windArrows.ts lines
232-246/270): return on cache hit, join the in-flight promise, otherwise
register and fetch. -/
def arrowCall (st : ArrowSys) (k : CacheKey) (fresh : ℕ) : ArrowSys × ArrowOutcome :=
  match st.arrowCache k with
  | some _ => (st, .cachedNoop)
  | none =>
    match st.arrowInflight k with
    | some r => (st, .joined r)
    | none =>
      (⟨st.arrowCache,
        fun k' => if k' = k then some fresh else st.arrowInflight k',
        k :: st.active⟩,
       .issued fresh)

/-- The continuation of `loadArrowPoint`'s promise chain (lines 246-268):
on success the (exactly 24-entry) decoded series is cached; on ANY failure —
including the rate-limited condition — a fully-null 24-entry series is
cached ("Mark failed to avoid infinite retries"); the `.finally` removes the
in-flight marker either way. -/
def arrowStored (u : Except FetchErr (Option OMJson)) :
    List (Option ArrowWindEntry) :=
  match u with
  | .ok (some j) =>
    match j.hourly with
    | some h => arrowEntries h
    | none => List.replicate 24 none
  | _ => List.replicate 24 none

def arrowComplete (st : ArrowSys) (k : CacheKey)
    (u : Except FetchErr (Option OMJson)) : ArrowSys :=
  ⟨fun k' => if k' = k then some (arrowStored u) else st.arrowCache k',
   fun k' => if k' = k then none else st.arrowInflight k',
   eraseKey st.active k⟩

/-- The page-load initial state of the arrow cache. -/
def initArrow : ArrowSys := ⟨fun _ => none, fun _ => none, []⟩

/-! ## Concurrency-limited batch fetch (useWindData.ts lines 113-197)

`pooledMap(items, fn, concurrency)` starts `min(concurrency, items.length)`
workers; each worker repeatedly claims the next unclaimed index (`const i =
next++`, atomic because no suspension point separates the read and the
increment), awaits `fn(items[i])`, writes `results[i]`, and exits its loop
when `next >= items.length`.  We model the execution as a small-step
machine; the scheduler freely chooses which worker advances, so every
interleaving of completions is covered.  The `fn` passed by
`useMultiPointWindData` is `fetchSafe`, which never rejects, so the
worker-level rethrow path is dead and the machine only needs resolved
results. -/

/-- A worker of `pooledMap` is about to test the loop condition (`ready`),
awaiting `fn(items[i])` (`working i`), or has left the loop (`retired`). -/
inductive WStatus where
  | ready
  | working (i : ℕ)
  | retired
deriving DecidableEq

structure PoolState (R : Type) where
  next : ℕ
  results : List (Option R)
  workers : List WStatus

/-- One scheduler step of `pooledMap` with `n` items whose awaited outcomes
are `f`: a ready worker claims the next index (when one remains), a working
worker's awaited promise resolves and the worker stores the result, or a
ready worker observes `next >= n` and leaves its loop. -/
inductive PoolStep (n : ℕ) {R : Type} (f : ℕ → R) :
    PoolState R → PoolState R → Prop where
  | claim (st : PoolState R) (w : ℕ)
      (hw : st.workers[w]? = some .ready) (hn : st.next < n) :
      PoolStep n f st
        ⟨st.next + 1, st.results, st.workers.set w (.working st.next)⟩
  | resolve (st : PoolState R) (w i : ℕ)
      (hw : st.workers[w]? = some (.working i)) :
      PoolStep n f st
        ⟨st.next, st.results.set i (some (f i)), st.workers.set w .ready⟩
  | exitLoop (st : PoolState R) (w : ℕ)
      (hw : st.workers[w]? = some .ready) (hn : n ≤ st.next) :
      PoolStep n f st ⟨st.next, st.results, st.workers.set w .retired⟩

/-- The state in which `pooledMap items fn concurrency` begins: `next = 0`,
a results array of `items.length` unfilled slots, and
`min(concurrency, items.length)` workers about to test the loop. -/
def poolInit (R : Type) (n concurrency : ℕ) : PoolState R :=
  ⟨0, List.replicate n none, List.replicate (min concurrency n) .ready⟩

/-- Reachability under pool steps. -/
def PoolReach (n : ℕ) {R : Type} (f : ℕ → R) : PoolState R → PoolState R → Prop :=
  Relation.ReflTransGen (PoolStep n f)

/-- `Promise.all` has resolved: every worker has left its loop. -/
def PoolFinished {R : Type} (st : PoolState R) : Prop :=
  ∀ w ∈ st.workers, w = WStatus.retired

/-- Number of `fn` invocations currently awaited (the requests in flight). -/
def workingCount {R : Type} (st : PoolState R) : ℕ :=
  st.workers.countP (fun w => match w with | .working _ => true | _ => false)

/-- The `fetchSafe` wrapper of `useMultiPointWindData` (useWindData.ts lines
174-180): a resolved fetch passes through, any rejection (rate-limit
included — the branch on `'limit'` only suppresses the console warning)
resolves to `null`. -/
def fetchSafe (res : Except FetchErr (List HourlyWindEntry)) :
    Option (List HourlyWindEntry) :=
  match res with
  | .ok s => some s
  | .error _ => none

/-! ## Arrow grid generation (windArrows.ts lines 283-300)

`buildGridPoints` interpolates between the southwest and northeast corners
with `r / (rows - 1)` and `c / (cols - 1)`.  In JavaScript `0 / 0` is `NaN`
and NaN propagates through `+` and `*`, so the coordinates need a number
type with an explicit non-finite element.  (`x / 0` with `x ≠ 0` is
`Infinity`, which cannot arise here: the numerator `r` is only 0 when
`rows = 1` forces the denominator to 0, and likewise for columns; we fold
that case into `jnan` as well since the claims only distinguish finite from
non-finite.) -/

inductive JNum where
  | jnan
  | fin (q : ℚ)
deriving DecidableEq

def jadd : JNum → JNum → JNum
  | .fin a, .fin b => .fin (a + b)
  | _, _ => .jnan

def jsub : JNum → JNum → JNum
  | .fin a, .fin b => .fin (a - b)
  | _, _ => .jnan

def jmul : JNum → JNum → JNum
  | .fin a, .fin b => .fin (a * b)
  | _, _ => .jnan

def jdiv : JNum → JNum → JNum
  | .fin a, .fin b => if b = 0 then .jnan else .fin (a / b)
  | _, _ => .jnan

/-- A mapbox `LngLatBounds` as its southwest/northeast corners. -/
structure Bounds where
  swLat : ℚ
  swLng : ℚ
  neLat : ℚ
  neLng : ℚ

structure GridPointJ where
  lat : JNum
  lng : JNum
deriving DecidableEq

/-- `buildGridPoints(bounds, cols, rows)` of windArrows.ts: for each
`r < rows`, `c < cols`, the point
`(sw.lat + (ne.lat - sw.lat) * (r / (rows - 1)),
  sw.lng + (ne.lng - sw.lng) * (c / (cols - 1)))`, rows outermost. -/
def buildGridPoints (b : Bounds) (cols rows : ℕ) : List GridPointJ :=
  (List.range rows).flatMap (fun (r : ℕ) =>
    (List.range cols).map (fun (c : ℕ) =>
      { lat := jadd (.fin b.swLat)
          (jmul (jsub (.fin b.neLat) (.fin b.swLat))
            (jdiv (.fin (r : ℚ)) (.fin ((rows : ℚ) - 1))))
        lng := jadd (.fin b.swLng)
          (jmul (jsub (.fin b.neLng) (.fin b.swLng))
            (jdiv (.fin (c : ℚ)) (.fin ((cols : ℚ) - 1)))) }))

/-! ## Geodesy (src/App.tsx lines 84-113)

These functions use `Math.sin`/`Math.cos`/`Math.atan2`, so they are modelled
over `ℝ` with the corresponding Mathlib transcendental functions;
`Math.atan2 y x` is the argument of the complex number `x + i*y` (range
`(-π, π]`, `atan2 0 0 = 0`, matching JavaScript). -/

/-- Truncation toward zero, as JavaScript's `%` uses for its quotient. -/
noncomputable def jsTrunc (x : ℝ) : ℤ := if 0 ≤ x then ⌊x⌋ else ⌈x⌉

/-- The JavaScript remainder `x % y`: same sign as the dividend.  (For
`y = 0` JavaScript yields `NaN`; the repository only uses `% 360`.) -/
noncomputable def jsMod (x y : ℝ) : ℝ := x - y * (jsTrunc (x / y) : ℝ)

noncomputable def toRadians (d : ℝ) : ℝ := d * Real.pi / 180

noncomputable def atan2 (y x : ℝ) : ℝ := Complex.arg ⟨x, y⟩

/-- `computeBearing` of App.tsx: initial great-circle bearing, mapped into
`[0, 360)` by `(atan2(y, x) * (180 / π) + 360) % 360`. -/
noncomputable def computeBearing (lat1 lng1 lat2 lng2 : ℝ) : ℝ :=
  let dLng := toRadians (lng2 - lng1)
  let y := Real.sin dLng * Real.cos (toRadians lat2)
  let x := Real.cos (toRadians lat1) * Real.sin (toRadians lat2) -
    Real.sin (toRadians lat1) * Real.cos (toRadians lat2) * Real.cos dLng
  jsMod (atan2 y x * (180 / Real.pi) + 360) 360

/-- `smallestAngle` of App.tsx: `d = |a - b| % 360`, folded to `[0, 180]`. -/
noncomputable def smallestAngle (a b : ℝ) : ℝ :=
  let d := jsMod |a - b| 360
  if 180 < d then 360 - d else d

/-- `headwindComponent` of App.tsx: the wind speed times the cosine of the
angle (in degrees) between the travel bearing and the direction the wind
blows from; positive opposes travel. -/
noncomputable def headwindComponent (bearing windFromDeg windSpeedKmh : ℝ) : ℝ :=
  windSpeedKmh * Real.cos (smallestAngle bearing windFromDeg * Real.pi / 180)

/-- `haversineMeters` of App.tsx: great-circle distance with mean Earth
radius 6,371,000 m. -/
noncomputable def haversineMeters (lat1 lng1 lat2 lng2 : ℝ) : ℝ :=
  let dLat := toRadians (lat2 - lat1)
  let dLng := toRadians (lng2 - lng1)
  let a := Real.sin (dLat / 2) ^ 2 +
    Real.cos (toRadians lat1) * Real.cos (toRadians lat2) * Real.sin (dLng / 2) ^ 2
  6371000 * (2 * atan2 (Real.sqrt a) (Real.sqrt (1 - a)))

/-! ## Segment scorer (src/App.tsx lines 145-272)

`buildSegmentCollection` consumes route coordinates (as `(lng, lat)` pairs,
matching the GeoJSON order of the source), the wind sample points (as
`(lat, lon)` pairs), the per-sample decoded wind series, the selected hour,
and the elevation profile, and produces one scored feature per consecutive
coordinate pair.  Only the numeric properties of the emitted GeoJSON
features are modelled (the geometry is the segment's two endpoints,
carried through verbatim). -/

/-- `nearestSampleIndex` of App.tsx: linear scan for the sample point with
the smallest squared lat/lon distance to the midpoint; `best` starts at 0
and `bestD` at `Infinity` (modelled by `none`, which any first distance
beats). -/
noncomputable def nearestScan (midLat midLng : ℝ) :
    List (ℝ × ℝ) → ℕ → ℕ → Option ℝ → ℕ
  | [], _, best, _ => best
  | p :: rest, i, best, bestD =>
    let d := (p.1 - midLat) ^ 2 + (p.2 - midLng) ^ 2
    match bestD with
    | none => nearestScan midLat midLng rest (i + 1) i (some d)
    | some bd =>
      if d < bd then nearestScan midLat midLng rest (i + 1) i (some d)
      else nearestScan midLat midLng rest (i + 1) best (some bd)

noncomputable def nearestSampleIndex (midLat midLng : ℝ)
    (pts : List (ℝ × ℝ)) : ℕ :=
  nearestScan midLat midLng pts 0 0 none

def CLIMB_K : ℝ := 600

noncomputable def GRADE_CLAMP : ℝ := 0.5

/-- The `1e-6` floor in `Math.max(...raws, 1e-6)` (App.tsx line 255). -/
noncomputable def scoreEPS : ℝ := 1 / 1000000

/-- An edge identity: the two endpoint keys (latitude and longitude rounded
to 5 decimals), in canonical order. -/
abbrev EdgeKey := (ℤ × ℤ) × (ℤ × ℤ)

/-- Real-number counterpart of `toFixed(d)` (see `jsFixed`). -/
noncomputable def jsFixedR (d : ℕ) (x : ℝ) : ℤ :=
  if 0 ≤ x then ⌊x * 10 ^ d + 1/2⌋ else -⌊-x * 10 ^ d + 1/2⌋

/-- One endpoint's key `lat.toFixed(5),lng.toFixed(5)` for a `(lng, lat)`
coordinate. -/
noncomputable def coordKey5 (p : ℝ × ℝ) : ℤ × ℤ := (jsFixedR 5 p.2, jsFixedR 5 p.1)

/-- `getEdgeKey` of App.tsx canonicalizes the unordered endpoint pair by
comparing the two key strings (`k1 < k2 ? k1|k2 : k2|k1`); we canonicalize
by the lexicographic order on the rounded integer pairs instead, which
produces the same edge identities — all the code ever does with an edge key
is compare it for equality, and both canonical forms of a pair agree
exactly when the unordered pairs agree. -/
noncomputable def edgeKey (p1 p2 : ℝ × ℝ) : EdgeKey :=
  let k1 := coordKey5 p1
  let k2 := coordKey5 p2
  if k1.1 < k2.1 ∨ (k1.1 = k2.1 ∧ k1.2 ≤ k2.2) then (k1, k2) else (k2, k1)

/-- Per-segment numeric statistics of the scoring pass (the fields pushed
into `segmentData`, App.tsx lines 242-250). -/
structure SegStat where
  headwindRaw : ℝ
  grade : ℝ
  climbPenalty : ℝ
  sufferRaw : ℝ
  passIndex : ℕ
  segA : ℝ × ℝ
  segB : ℝ × ℝ

/-- The numeric properties of an emitted GeoJSON feature (App.tsx lines
257-269). -/
structure SegFeature where
  score : ℝ
  headwindRaw : ℝ
  grade : ℝ
  climbPenalty : ℝ
  sufferRaw : ℝ
  totalScore : ℝ
  passIndex : ℕ
  segA : ℝ × ℝ
  segB : ℝ × ℝ

/-- The optional-chaining lookup `allData[idx]?.[hourIndex] ?? null`. -/
noncomputable def lookupEntry (allData : List (Option (List HourlyWindEntry)))
    (idx hourIndex : ℕ) : Option HourlyWindEntry :=
  match allData[idx]? with
  | some (some series) => series[hourIndex]?
  | _ => none

/-- The wind entry a segment reads:
`allData[nearestIdx]?.[hourIndex] ?? null` with
`nearestIdx = samplePoints.length > 0 ? nearestSampleIndex(...) : 0`. -/
noncomputable def segWindEntry (samplePoints : List (ℝ × ℝ))
    (allData : List (Option (List HourlyWindEntry))) (hourIndex : ℕ)
    (p1 p2 : ℝ × ℝ) : Option HourlyWindEntry :=
  let midLat := (p1.2 + p2.2) / 2
  let midLng := (p1.1 + p2.1) / 2
  let nearestIdx :=
    if 0 < samplePoints.length then nearestSampleIndex midLat midLng samplePoints
    else 0
  lookupEntry allData nearestIdx hourIndex

/-- `headwindRaw = Math.max(0, hw)` where `hw` is the headwind component for
the resolved entry, or 0 with no entry (App.tsx lines 209-210). -/
noncomputable def segHeadwindRaw (samplePoints : List (ℝ × ℝ))
    (allData : List (Option (List HourlyWindEntry))) (hourIndex : ℕ)
    (p1 p2 : ℝ × ℝ) : ℝ :=
  let bearing := computeBearing p1.2 p1.1 p2.2 p2.1
  max 0 (match segWindEntry samplePoints allData hourIndex p1 p2 with
    | some e => headwindComponent bearing (e.direction_deg : ℝ) (e.speed_kmh : ℝ)
    | none => 0)

/-- The `(grade, climbPenalty)` pair of App.tsx lines 212-227: zero without
an elevation profile or below the 0.1 m distance guard; otherwise the
`±GRADE_CLAMP`-clamped grade, penalized by `CLIMB_K × grade` only when
positive. -/
noncomputable def segGradePen (elevations : List ℝ) (hasElev : Bool) (i : ℕ)
    (p1 p2 : ℝ × ℝ) : ℝ × ℝ :=
  if hasElev then
    let distM := haversineMeters p1.2 p1.1 p2.2 p2.1
    if 0.1 < distM then
      let rawGrade := (elevations.getD (i + 1) 0 - elevations.getD i 0) / distM
      let g := max (-GRADE_CLAMP) (min GRADE_CLAMP rawGrade)
      (g, if 0 < g then CLIMB_K * g else 0)
    else (0, 0)
  else (0, 0)

/-- The per-segment scoring loop (App.tsx lines 197-251) over the list of
consecutive coordinate pairs, carrying the segment index and the
`edgeVisited` map; `counts` is the precomputed `edgeCounts` occurrence map.
(`edgeCounts.get(edgeKey) || 1` is the `tv` computation: a missing key
counts as 1.) -/
noncomputable def segLoop (samplePoints : List (ℝ × ℝ))
    (allData : List (Option (List HourlyWindEntry))) (hourIndex : ℕ)
    (elevations : List ℝ) (hasElev includeWind : Bool) (counts : EdgeKey → ℕ) :
    List ((ℝ × ℝ) × (ℝ × ℝ)) → ℕ → (EdgeKey → ℕ) → List SegStat
  | [], _, _ => []
  | (p1, p2) :: rest, i, visited =>
    let hwRaw := segHeadwindRaw samplePoints allData hourIndex p1 p2
    let gp := segGradePen elevations hasElev i p1 p2
    let suffer := (if includeWind then hwRaw else 0) + gp.2
    let ek := edgeKey p1 p2
    let tv := if counts ek = 0 then 1 else counts ek
    let pv : ℕ × (EdgeKey → ℕ) :=
      if 1 < tv then
        let visited2 : EdgeKey → ℕ := fun k => if k = ek then visited ek + 1 else visited k
        (if 1 < visited2 ek then 1 else 0, visited2)
      else (0, visited)
    { headwindRaw := hwRaw, grade := gp.1, climbPenalty := gp.2,
      sufferRaw := suffer, passIndex := pv.1, segA := p1, segB := p2 } ::
      segLoop samplePoints allData hourIndex elevations hasElev includeWind
        counts rest (i + 1) pv.2

/-- `Math.max(...raws, 1e-6)`: the maximum of all raw suffer values and the
`1e-6` floor. -/
noncomputable def maxSuffer (raws : List ℝ) : ℝ := raws.foldl max scoreEPS

/-- The normalization pass (App.tsx lines 253-269): each scored segment
becomes a feature whose `score` (and `totalScore`) is its raw suffer value
divided by `maxSuffer` of all raw suffer values. -/
noncomputable def normalizeStats (stats : List SegStat) : List SegFeature :=
  let m := maxSuffer (stats.map (fun s => s.sufferRaw))
  stats.map (fun s =>
    { score := s.sufferRaw / m, headwindRaw := s.headwindRaw,
      grade := s.grade, climbPenalty := s.climbPenalty,
      sufferRaw := s.sufferRaw, totalScore := s.sufferRaw / m,
      passIndex := s.passIndex, segA := s.segA, segB := s.segB })

/-- `buildSegmentCollection` of App.tsx: fewer than 2 coordinates yields no
features; otherwise each consecutive pair is scored and the raw suffer
values are normalized by `maxSuffer`. -/
noncomputable def buildSegmentCollection (coords samplePoints : List (ℝ × ℝ))
    (allData : List (Option (List HourlyWindEntry))) (hourIndex : ℕ)
    (elevations : List ℝ) (includeElevation includeWind : Bool) :
    List SegFeature :=
  if coords.length < 2 then []
  else
    let pairs := coords.zip coords.tail
    let hasElev := includeElevation && decide (elevations.length = coords.length)
    let counts : EdgeKey → ℕ :=
      fun k => pairs.countP (fun q => decide (edgeKey q.1 q.2 = k))
    normalizeStats (segLoop samplePoints allData hourIndex elevations hasElev
      includeWind counts pairs 0 (fun _ => 0))

/-! ## Arithmetic helper lemmas for the geodesy functions -/

theorem jsMod_of_nonneg (x : ℝ) (hx : 0 ≤ x) :
    jsMod x 360 = 360 * Int.fract (x / 360) := by
  have hq : 0 ≤ x / 360 := div_nonneg hx (by norm_num)
  rw [jsMod, jsTrunc, if_pos hq, Int.fract]
  have : (360 : ℝ) * (x / 360) = x := by field_simp
  rw [mul_sub, this]

theorem jsMod_nonneg (x : ℝ) (hx : 0 ≤ x) : 0 ≤ jsMod x 360 := by
  rw [jsMod_of_nonneg x hx]
  have := Int.fract_nonneg (x / 360)
  nlinarith

theorem jsMod_lt (x : ℝ) (hx : 0 ≤ x) : jsMod x 360 < 360 := by
  rw [jsMod_of_nonneg x hx]
  have := Int.fract_lt_one (x / 360)
  nlinarith

theorem jsMod_eq_self (x : ℝ) (h0 : 0 ≤ x) (h1 : x < 360) : jsMod x 360 = x := by
  rw [jsMod_of_nonneg x h0, Int.fract_eq_self.mpr
    ⟨div_nonneg h0 (by norm_num), by rw [div_lt_one] <;> linarith⟩]
  field_simp

theorem jsMod_add_360 (x : ℝ) (h0 : 0 ≤ x) (h1 : x < 360) :
    jsMod (x + 360) 360 = x := by
  have hx : (0:ℝ) ≤ x + 360 := by linarith
  rw [jsMod_of_nonneg _ hx]
  have : (x + 360) / 360 = x / 360 + (1 : ℤ) := by push_cast; field_simp
  rw [this, Int.fract_add_int, Int.fract_eq_self.mpr
    ⟨div_nonneg h0 (by norm_num), by rw [div_lt_one] <;> linarith⟩]
  field_simp

theorem smallestAngle_self (b : ℝ) : smallestAngle b b = 0 := by
  have h0 : jsMod |b - b| 360 = 0 := by
    rw [sub_self, abs_zero, jsMod_eq_self 0 le_rfl (by norm_num)]
  rw [smallestAngle]
  simp only [h0]
  norm_num

theorem smallestAngle_comm (a b : ℝ) : smallestAngle a b = smallestAngle b a := by
  rw [smallestAngle, smallestAngle, abs_sub_comm]

theorem smallestAngle_mem (a b : ℝ) :
    0 ≤ smallestAngle a b ∧ smallestAngle a b ≤ 180 := by
  rw [smallestAngle]
  have h0 := jsMod_nonneg |a - b| (abs_nonneg _)
  have h1 := jsMod_lt |a - b| (abs_nonneg _)
  by_cases h : 180 < jsMod |a - b| 360
  · rw [if_pos h]; constructor <;> linarith
  · rw [if_neg h]; constructor <;> linarith

theorem smallestAngle_opp (b : ℝ) (h0 : 0 ≤ b) (h1 : b < 360) :
    smallestAngle b (jsMod (b + 180) 360) = 180 := by
  have key : jsMod (b + 180) 360 = b + 180 ∨ jsMod (b + 180) 360 = b - 180 := by
    by_cases hb : b < 180
    · exact Or.inl (jsMod_eq_self (b + 180) (by linarith) (by linarith))
    · right
      have : b + 180 = (b - 180) + 360 := by ring
      rw [this, jsMod_add_360 (b - 180) (by linarith) (by linarith)]
  have habs : |b - jsMod (b + 180) 360| = 180 := by
    rcases key with h | h
    · rw [h, show b - (b + 180) = -180 by ring, abs_of_nonpos (by norm_num)]
      norm_num
    · rw [h, show b - (b - 180) = 180 by ring, abs_of_nonneg (by norm_num)]
  rw [smallestAngle]
  simp only [habs, jsMod_eq_self 180 (by norm_num) (by norm_num)]
  norm_num

theorem headwind_self (b s : ℝ) : headwindComponent b b s = s := by
  rw [headwindComponent, smallestAngle_self]
  simp

theorem headwind_opp (b s : ℝ) (h0 : 0 ≤ b) (h1 : b < 360) :
    headwindComponent b (jsMod (b + 180) 360) s = -s := by
  rw [headwindComponent, smallestAngle_opp b h0 h1]
  have : (180 : ℝ) * Real.pi / 180 = Real.pi := by
    rw [mul_comm, mul_div_assoc]; norm_num
  rw [this, Real.cos_pi]
  ring

/-- C4: for every bearing `b` in `[0, 360)` and wind speed `s ≥ 0`,
`headwindComponent b b s = s` (wind from the travel bearing is a full
headwind) and `headwindComponent b ((b + 180) % 360) s = -s` (wind from
directly behind is a full tailwind); `headwindComponent` is
`s * cos(smallestAngle(b, w))` with the angle taken in degrees, and
`smallestAngle` is symmetric with values in `[0, 180]`. -/
theorem C4_headwind_sign_convention (b w s : ℝ)
    (hb0 : 0 ≤ b) (hb1 : b < 360) (hs : 0 ≤ s) :
    headwindComponent b b s = s ∧
    headwindComponent b (jsMod (b + 180) 360) s = -s ∧
    headwindComponent b w s =
      s * Real.cos (smallestAngle b w * Real.pi / 180) ∧
    (∀ a c : ℝ, smallestAngle a c = smallestAngle c a) ∧
    (∀ a c : ℝ, 0 ≤ smallestAngle a c ∧ smallestAngle a c ≤ 180) := by
  exact ⟨headwind_self b s, headwind_opp b s hb0 hb1, rfl,
    smallestAngle_comm, smallestAngle_mem⟩

/-- Witness for C4 at `b = 90`, `w = 45`, `s = 20`. -/
theorem C4_headwind_sign_convention_witness :
    headwindComponent 90 90 20 = 20 ∧
    headwindComponent 90 (jsMod (90 + 180) 360) 20 = -20 := by
  have h := C4_headwind_sign_convention 90 45 20
    (by norm_num) (by norm_num) (by norm_num)
  exact ⟨h.1, h.2.1⟩

/-! ## Grid indexing helpers and the C8 claim -/

theorem flatMapRange_getElem {α : Type} (cols : ℕ) :
    ∀ (rows : ℕ) (f : ℕ → List α), (∀ r, (f r).length = cols) →
      ∀ r c : ℕ, r < rows → c < cols →
        ((List.range rows).flatMap f)[r * cols + c]? = (f r)[c]? := by
  intro rows
  induction rows with
  | zero => intro f hf r c hr hc; exact absurd hr (Nat.not_lt_zero r)
  | succ n ih =>
    intro f hf r c hr hc
    rw [List.range_succ_eq_map, List.flatMap_cons, List.flatMap_map]
    cases r with
    | zero =>
      rw [Nat.zero_mul, Nat.zero_add, List.getElem?_append,
        if_pos (by rw [hf 0]; exact hc)]
    | succ r' =>
      rw [List.getElem?_append_right (by rw [hf 0, Nat.succ_mul]; omega)]
      have heq : (r' + 1) * cols + c - (f 0).length = r' * cols + c := by
        rw [hf 0, Nat.succ_mul]; omega
      rw [heq]
      exact ih (fun a => f (Nat.succ a)) (fun a => hf (Nat.succ a)) r' c
        (Nat.lt_of_succ_lt_succ hr) hc

theorem flatMapRangeMap_length {α : Type} (g : ℕ → ℕ → α) (cols rows : ℕ) :
    ((List.range rows).flatMap (fun r => (List.range cols).map (g r))).length =
      cols * rows := by
  induction rows with
  | zero => simp
  | succ n ih =>
    rw [List.range_succ, List.flatMap_append]
    simp only [List.length_append, ih, List.flatMap_cons, List.flatMap_nil,
      List.append_nil, List.length_map, List.length_range, Nat.mul_succ]

theorem flatMapRangeMap_getElem {α : Type} (g : ℕ → ℕ → α) (cols rows r c : ℕ)
    (hr : r < rows) (hc : c < cols) :
    ((List.range rows).flatMap
      (fun a => (List.range cols).map (g a)))[r * cols + c]? = some (g r c) := by
  rw [flatMapRange_getElem cols rows _
    (fun a => by rw [List.length_map, List.length_range]) r c hr hc]
  rw [List.getElem?_map, List.getElem?_range hc]
  rfl

theorem buildGridPoints_length (b : Bounds) (cols rows : ℕ) :
    (buildGridPoints b cols rows).length = cols * rows := by
  rw [buildGridPoints]
  exact flatMapRangeMap_length _ cols rows

/-- C8 counterexample: with `cols = rows = 1` (which the claim admits as a
"degenerate single-point case"), the single returned grid point has NaN
coordinates — `0 / (1 - 1)` is `0 / 0 = NaN` in JavaScript — so not every
returned coordinate is a finite number. -/
theorem C8_grid_degenerate_cex :
    buildGridPoints ⟨0, 0, 1, 1⟩ 1 1 =
      [{ lat := JNum.jnan, lng := JNum.jnan }] := by
  rw [buildGridPoints, show List.range 1 = [0] from rfl]
  simp only [List.flatMap_cons, List.flatMap_nil, List.append_nil,
    List.map_cons, List.map_nil]
  norm_num [jdiv, jmul, jsub, jadd]

/-- C8 (amended): `buildGridPoints` always returns exactly `cols × rows`
points; when `cols ≥ 2` and `rows ≥ 2` every point is the finite linear
interpolation between the southwest and northeast corners inclusive of the
edges (point `(r, c)` sits at fractions `r / (rows - 1)` and
`c / (cols - 1)`, the first point is the southwest corner and the last the
northeast corner); when `rows = 1` every returned latitude is NaN and when
`cols = 1` every returned longitude is NaN (`0 / 0`), not a degenerate
single-point axis. -/
theorem C8_grid_interpolation (b : Bounds) (cols rows : ℕ)
    (hc : 2 ≤ cols) (hr : 2 ≤ rows) :
    (∀ cols' rows' : ℕ, (buildGridPoints b cols' rows').length = cols' * rows') ∧
    (∀ r c : ℕ, r < rows → c < cols →
      (buildGridPoints b cols rows)[r * cols + c]? = some
        { lat := JNum.fin (b.swLat + (b.neLat - b.swLat) * ((r : ℚ) / ((rows : ℚ) - 1)))
          lng := JNum.fin (b.swLng + (b.neLng - b.swLng) * ((c : ℚ) / ((cols : ℚ) - 1))) }) ∧
    (buildGridPoints b cols rows)[0]? =
      some { lat := JNum.fin b.swLat, lng := JNum.fin b.swLng } ∧
    (buildGridPoints b cols rows)[(rows - 1) * cols + (cols - 1)]? =
      some { lat := JNum.fin b.neLat, lng := JNum.fin b.neLng } ∧
    (∀ cols' : ℕ, ∀ p ∈ buildGridPoints b cols' 1, p.lat = JNum.jnan) ∧
    (∀ rows' : ℕ, ∀ p ∈ buildGridPoints b 1 rows', p.lng = JNum.jnan) := by
  have hrq : ((rows : ℚ) - 1) ≠ 0 := by
    have h2 : (2 : ℚ) ≤ (rows : ℚ) := by exact_mod_cast hr
    intro h; nlinarith
  have hcq : ((cols : ℚ) - 1) ≠ 0 := by
    have h2 : (2 : ℚ) ≤ (cols : ℚ) := by exact_mod_cast hc
    intro h; nlinarith
  have main : ∀ r c : ℕ, r < rows → c < cols →
      (buildGridPoints b cols rows)[r * cols + c]? = some
        { lat := JNum.fin (b.swLat + (b.neLat - b.swLat) * ((r : ℚ) / ((rows : ℚ) - 1)))
          lng := JNum.fin (b.swLng + (b.neLng - b.swLng) * ((c : ℚ) / ((cols : ℚ) - 1))) } := by
    intro r c hrr hcc
    rw [buildGridPoints, flatMapRangeMap_getElem _ cols rows r c hrr hcc]
    simp only [jsub, jdiv, jmul, jadd, hrq, hcq, if_false, reduceCtorEq]
  refine ⟨fun c' r' => buildGridPoints_length b c' r', main, ?_, ?_, ?_, ?_⟩
  · have h0 := main 0 0 (by omega) (by omega)
    rw [Nat.zero_mul, Nat.zero_add] at h0
    rw [h0]
    norm_num
  · have h1 := main (rows - 1) (cols - 1) (by omega) (by omega)
    rw [h1]
    have hr1 : ((rows - 1 : ℕ) : ℚ) = (rows : ℚ) - 1 := by
      push_cast [Nat.cast_sub (by omega : 1 ≤ rows)]; ring
    have hc1 : ((cols - 1 : ℕ) : ℚ) = (cols : ℚ) - 1 := by
      push_cast [Nat.cast_sub (by omega : 1 ≤ cols)]; ring
    rw [hr1, hc1, div_self hrq, div_self hcq]
    norm_num
  · intro cols' p hp
    rw [buildGridPoints, show List.range 1 = [0] from rfl] at hp
    simp only [List.flatMap_cons, List.flatMap_nil, List.append_nil,
      List.mem_map, List.mem_range] at hp
    obtain ⟨c, _, rfl⟩ := hp
    norm_num [jdiv, jmul, jsub, jadd]
  · intro rows' p hp
    rw [buildGridPoints] at hp
    simp only [List.mem_flatMap, List.mem_map, List.mem_range] at hp
    obtain ⟨r, _, ⟨c, hcr, rfl⟩⟩ := hp
    have hc0 : c = 0 := by omega
    subst hc0
    norm_num [jdiv, jmul, jsub, jadd]

/-- Witness for C8 on a 2×2 grid over the unit bounds. -/
theorem C8_grid_interpolation_witness :
    (buildGridPoints ⟨0, 0, 1, 1⟩ 2 2).length = 2 * 2 ∧
    (buildGridPoints ⟨0, 0, 1, 1⟩ 2 2)[0]? =
      some { lat := JNum.fin 0, lng := JNum.fin 0 } ∧
    (buildGridPoints ⟨0, 0, 1, 1⟩ 2 2)[(2 - 1) * 2 + (2 - 1)]? =
      some { lat := JNum.fin 1, lng := JNum.fin 1 } := by
  have h := C8_grid_interpolation ⟨0, 0, 1, 1⟩ 2 2 (by norm_num) (by norm_num)
  exact ⟨h.1 2 2, h.2.2.1, h.2.2.2.1⟩

/-! ## Reduction helpers for the completion handlers -/

theorem decodeEntries_single (t : String) (s d : ℚ) :
    decodeEntries ⟨[t], [s], [d]⟩ =
      [{ time := t, speed_kmh := ((jsRound (s * 10) : ℤ) : ℚ) / 10,
         direction_deg := ((jsRound d : ℤ) : ℚ) }] := rfl

theorem completeFetch_cache_of_ok (st : FetchSys) (k : CacheKey)
    (u : Except FetchErr (Option OMJson)) (s : List HourlyWindEntry)
    (hcr : chainResult u = .ok s) : (completeFetch st k u).cache k = some s := by
  rw [completeFetch, hcr]
  simp

theorem completeFetch_cache_of_error (st : FetchSys) (k : CacheKey)
    (u : Except FetchErr (Option OMJson)) (e : FetchErr)
    (hcr : chainResult u = .error e) :
    ∀ k', (completeFetch st k u).cache k' = st.cache k' := by
  intro k'
  rw [completeFetch, hcr]

theorem completeFetch_inflight (st : FetchSys) (k : CacheKey)
    (u : Except FetchErr (Option OMJson)) :
    (completeFetch st k u).inflight k = none := by
  rw [completeFetch]
  match hcr : chainResult u with
  | .ok s => simp
  | .error e => simp

theorem chainResult_obj (er : Bool) (re : Option String) (hh : OMHourly)
    (hne : decodeEntries hh ≠ []) :
    chainResult (.ok (some ⟨er, re, some hh⟩)) = .ok (decodeEntries hh) := by
  rw [chainResult]
  simp [hne]

theorem chainResult_error (e : FetchErr) :
    chainResult (.error e) = .error e := rfl

/-! ## Decoded entry bounds and series lengths (claims C9 and C5) -/

theorem getD_zero_mem_or (l : List ℚ) (i : ℕ) : l.getD i 0 ∈ l ∨ l.getD i 0 = 0 := by
  by_cases hi : i < l.length
  · left
    rw [List.getD_eq_getElem l 0 hi]
    exact List.getElem_mem hi
  · right
    exact List.getD_eq_default l 0 (by omega)

/-- C9 counterexample: a provider response whose raw wind direction is
359.7° — inside the assumed range `[0, 360)` — decodes to
`direction_deg = Math.round(359.7) = 360`, which is outside `[0, 360)`,
and `fetchWindForPoint` stores exactly that entry in the point cache. -/
theorem C9_direction_rounding_cex :
    (0 : ℚ) ≤ 359.7 ∧ (359.7 : ℚ) < 360 ∧
    (decodeEntries ⟨["t0"], [5], [359.7]⟩).map (fun e => e.direction_deg) =
      [360] ∧
    (completeFetch initFetch ((0, 0, "d") : CacheKey)
        (.ok (some ⟨false, none, some ⟨["t0"], [5], [359.7]⟩⟩))).cache
      (0, 0, "d") = some (decodeEntries ⟨["t0"], [5], [359.7]⟩) ∧
    ¬ ((360 : ℚ) < 360) := by
  have hround : jsRound (359.7 : ℚ) = 360 := by
    rw [jsRound, Int.floor_eq_iff]
    norm_num
  refine ⟨by norm_num, by norm_num, ?_, ?_, by norm_num⟩
  · rw [decodeEntries_single, List.map_cons, List.map_nil, hround]
    norm_num
  · exact completeFetch_cache_of_ok _ _ _ _
      (chainResult_obj false none _ (by rw [decodeEntries_single]; simp))

/-- C9 (amended): under the provider contract (raw speeds ≥ 0, raw
directions in `[0, 360)`) every decoded entry — in the point-cache decode
and in the arrow-cache decode alike — has `speed_kmh ≥ 0` and
`direction_deg` in the closed interval `[0, 360]`: the rounding applied
during decoding can produce `direction_deg = 360` exactly (for raw
directions in `(359.5, 360)`), so the half-open interval `[0, 360)` of the
data model does not hold for the stored entries. -/
theorem C9_decoded_entry_bounds (h : OMHourly)
    (hspeed : ∀ s ∈ h.windspeed_10m, 0 ≤ s)
    (hdir : ∀ d ∈ h.winddirection_10m, 0 ≤ d ∧ d < 360) :
    (∀ e ∈ decodeEntries h,
      0 ≤ e.speed_kmh ∧ 0 ≤ e.direction_deg ∧ e.direction_deg ≤ 360) ∧
    (∀ o ∈ arrowEntries h, ∀ a, o = some a →
      0 ≤ a.speed_kmh ∧ 0 ≤ a.direction_deg ∧ a.direction_deg ≤ 360) := by
  have hsd : ∀ i : ℕ, 0 ≤ h.windspeed_10m.getD i 0 := by
    intro i
    rcases getD_zero_mem_or h.windspeed_10m i with hm | hz
    · exact hspeed _ hm
    · rw [hz]
  have hdd : ∀ i : ℕ,
      0 ≤ h.winddirection_10m.getD i 0 ∧ h.winddirection_10m.getD i 0 < 360 := by
    intro i
    rcases getD_zero_mem_or h.winddirection_10m i with hm | hz
    · exact hdir _ hm
    · rw [hz]; norm_num
  have hs : ∀ i : ℕ,
      0 ≤ ((jsRound (h.windspeed_10m.getD i 0 * 10) : ℤ) : ℚ) / 10 := by
    intro i
    apply div_nonneg _ (by norm_num)
    have hz : (0 : ℤ) ≤ jsRound (h.windspeed_10m.getD i 0 * 10) := by
      rw [jsRound, Int.le_floor]
      have := hsd i
      push_cast
      nlinarith
    exact_mod_cast hz
  have hd : ∀ i : ℕ, 0 ≤ ((jsRound (h.winddirection_10m.getD i 0) : ℤ) : ℚ) ∧
      ((jsRound (h.winddirection_10m.getD i 0) : ℤ) : ℚ) ≤ 360 := by
    intro i
    obtain ⟨h0, h1⟩ := hdd i
    constructor
    · have hz : (0 : ℤ) ≤ jsRound (h.winddirection_10m.getD i 0) := by
        rw [jsRound, Int.le_floor]
        push_cast
        linarith
      exact_mod_cast hz
    · have h361 : jsRound (h.winddirection_10m.getD i 0) < 361 := by
        rw [jsRound, Int.floor_lt]
        push_cast
        linarith
      have hz : jsRound (h.winddirection_10m.getD i 0) ≤ (360 : ℤ) := by omega
      exact_mod_cast hz
  constructor
  · intro e he
    rw [decodeEntries] at he
    simp only [List.mem_map, List.mem_range] at he
    obtain ⟨i, _, rfl⟩ := he
    exact ⟨hs i, (hd i).1, (hd i).2⟩
  · intro o ho a hoa
    rw [arrowEntries] at ho
    rcases List.mem_append.mp ho with hl | hr
    · have hm := List.mem_of_mem_take hl
      simp only [List.mem_map, List.mem_range] at hm
      obtain ⟨i, _, rfl⟩ := hm
      obtain rfl := Option.some_inj.mp hoa
      exact ⟨hs i, (hd i).1, (hd i).2⟩
    · rw [List.eq_of_mem_replicate hr] at hoa
      exact absurd hoa (by simp)

/-- Witness for C9 on a one-entry response with speed 5 and direction 90. -/
theorem C9_decoded_entry_bounds_witness :
    ∃ e : HourlyWindEntry, decodeEntries ⟨["t0"], [5], [90]⟩ = [e] ∧
      0 ≤ e.speed_kmh ∧ 0 ≤ e.direction_deg ∧ e.direction_deg ≤ 360 := by
  have h := C9_decoded_entry_bounds ⟨["t0"], [5], [90]⟩
    (by intro s hs; simp only [List.mem_singleton] at hs; rw [hs]; norm_num)
    (by intro d hd; simp only [List.mem_singleton] at hd; rw [hd]; norm_num)
  refine ⟨_, decodeEntries_single "t0" 5 90, ?_⟩
  exact h.1 _ (by rw [decodeEntries_single]; exact List.mem_singleton.mpr rfl)

/-- C5 counterexample: a provider response with a single time entry is
decoded by `fetchWindForPoint` to a one-entry series and stored as-is in
the point cache — the stored `WindSeries` has length 1, not 24 (the point
cache, unlike the arrow cache, neither truncates nor pads). -/
theorem C5_point_series_length_cex :
    (completeFetch initFetch ((0, 0, "d") : CacheKey)
        (.ok (some ⟨false, none, some ⟨["t0"], [5], [10]⟩⟩))).cache
      (0, 0, "d") = some (decodeEntries ⟨["t0"], [5], [10]⟩) ∧
    (decodeEntries ⟨["t0"], [5], [10]⟩).length = 1 := by
  constructor
  · exact completeFetch_cache_of_ok _ _ _ _
      (chainResult_obj false none _ (by rw [decodeEntries_single]; simp))
  · rw [decodeEntries_single]
    rfl

/-- C5 (amended): every series stored in the ARROW grid cache has exactly
24 entries with missing hours as null holes (both the decode-and-pad path
and the all-null failure path store 24-entry lists); but the series the
POINT cache stores for a successful response has exactly as many entries
as the response's `hourly.time` array — the point cache does not force
length 24. -/
theorem C5_series_lengths (h : OMHourly) (st : FetchSys) (ast : ArrowSys)
    (k : CacheKey) (u : Except FetchErr (Option OMJson)) :
    (arrowEntries h).length = 24 ∧
    (∃ l, (arrowComplete ast k u).arrowCache k = some l ∧ l.length = 24) ∧
    (decodeEntries h).length = h.time.length ∧
    (∀ er re hh, u = .ok (some ⟨er, re, some hh⟩) → decodeEntries hh ≠ [] →
      (completeFetch st k u).cache k = some (decodeEntries hh)) := by
  have hlen : ∀ hh : OMHourly, (arrowEntries hh).length = 24 := by
    intro hh
    rw [arrowEntries]
    simp only [List.length_append, List.length_take, List.length_map,
      List.length_range, List.length_replicate]
    omega
  have hstored : (arrowStored u).length = 24 := by
    match u with
    | .ok (some j) =>
      simp only [arrowStored]
      rcases hj : j.hourly with _ | hh
      · exact List.length_replicate 24 none
      · exact hlen hh
    | .ok none => exact List.length_replicate 24 none
    | .error e => exact List.length_replicate 24 none
  refine ⟨hlen h, ?_, ?_, ?_⟩
  · exact ⟨arrowStored u, by rw [arrowComplete]; simp, hstored⟩
  · rw [decodeEntries, List.length_map, List.length_range]
  · intro er re hh hu hne
    subst hu
    exact completeFetch_cache_of_ok _ _ _ _ (chainResult_obj er re hh hne)

/-- Witness for C5 on a one-entry response completing against the empty
caches. -/
theorem C5_series_lengths_witness :
    (arrowEntries ⟨["t1"], [5], [10]⟩).length = 24 ∧
    (completeFetch initFetch ((0, 0, "e") : CacheKey)
        (.ok (some ⟨false, none, some ⟨["t1"], [5], [10]⟩⟩))).cache
      (0, 0, "e") = some (decodeEntries ⟨["t1"], [5], [10]⟩) := by
  have h := C5_series_lengths ⟨["t1"], [5], [10]⟩ initFetch initArrow
    ((0, 0, "e") : CacheKey) (.ok (some ⟨false, none, some ⟨["t1"], [5], [10]⟩⟩))
  exact ⟨h.1, h.2.2.2 false none _ rfl (by rw [decodeEntries_single]; simp)⟩

/-! ## Rate-limited failures and retry behaviour (claim C6) -/

/-- C6 counterexample: after `loadArrowPoint` fails with the rate-limited
condition, the ARROW grid cache DOES store an entry for the key (a fully
null 24-entry series), and a subsequent explicit `loadArrowPoint` for the
same key returns from the cache without issuing any new network request —
the key is effectively marked permanently failed for the session. -/
theorem C6_rate_limit_cached_cex :
    (arrowComplete initArrow ((0, 0, "d") : CacheKey)
        (.error .rateLimited)).arrowCache (0, 0, "d") =
      some (List.replicate 24 none) ∧
    (arrowCall (arrowComplete initArrow ((0, 0, "d") : CacheKey)
        (.error .rateLimited)) (0, 0, "d") 1).2 = ArrowOutcome.cachedNoop ∧
    (arrowCall (arrowComplete initArrow ((0, 0, "d") : CacheKey)
        (.error .rateLimited)) (0, 0, "d") 1).1.active = [] := by
  have hc : (arrowComplete initArrow ((0, 0, "d") : CacheKey)
      (.error .rateLimited)).arrowCache (0, 0, "d") =
      some (List.replicate 24 none) := by
    rw [arrowComplete]
    simp [arrowStored]
  refine ⟨hc, ?_, ?_⟩
  · rw [arrowCall, hc]
  · rw [arrowCall, hc]
    rfl

/-- C6 (amended): a rate-limited (or any) failure is not cached in the
POINT-level wind cache — the in-flight marker is removed, no cache entry is
written, and a subsequent explicit `fetchWindForPoint` for the same key
issues a new network request; but the ARROW grid cache stores a fully-null
24-entry series on any failure (rate-limit included), so a subsequent
`loadArrowPoint` for that key returns the cached nulls without a new
network request. -/
theorem C6_rate_limited_retry (st : FetchSys) (ast : ArrowSys) (k : CacheKey)
    (e : FetchErr) (f : ℕ) (hmiss : st.cache k = none) :
    (completeFetch st k (.error e)).cache k = none ∧
    (completeFetch st k (.error e)).inflight k = none ∧
    (fetchCall (completeFetch st k (.error e)) k f).2 = .issued f ∧
    keyCount (fetchCall (completeFetch st k (.error e)) k f).1.active k =
      keyCount (completeFetch st k (.error e)).active k + 1 ∧
    (arrowComplete ast k (.error e)).arrowCache k =
      some (List.replicate 24 none) ∧
    (arrowCall (arrowComplete ast k (.error e)) k f).2 =
      ArrowOutcome.cachedNoop ∧
    (arrowCall (arrowComplete ast k (.error e)) k f).1 =
      arrowComplete ast k (.error e) := by
  have hc : (completeFetch st k (.error e)).cache k = none := by
    rw [completeFetch_cache_of_error st k _ e (chainResult_error e) k]
    exact hmiss
  have hi : (completeFetch st k (.error e)).inflight k = none :=
    completeFetch_inflight st k _
  have hac : (arrowComplete ast k (.error e)).arrowCache k =
      some (List.replicate 24 none) := by
    rw [arrowComplete]
    simp [arrowStored]
  refine ⟨hc, hi, ?_, ?_, hac, ?_, ?_⟩
  · rw [fetchCall, hc, hi]
  · rw [fetchCall, hc, hi]
    simp [keyCount, List.countP_cons]
  · rw [arrowCall, hac]
  · rw [arrowCall, hac]

/-- Witness for C6 completing a rate-limited failure against the empty
caches. -/
theorem C6_rate_limited_retry_witness :
    (completeFetch initFetch ((0, 0, "w") : CacheKey)
        (.error .rateLimited)).cache (0, 0, "w") = none ∧
    (fetchCall (completeFetch initFetch ((0, 0, "w") : CacheKey)
        (.error .rateLimited)) (0, 0, "w") 7).2 = .issued 7 ∧
    (arrowComplete initArrow ((0, 0, "w") : CacheKey)
        (.error .rateLimited)).arrowCache (0, 0, "w") =
      some (List.replicate 24 none) := by
  have h := C6_rate_limited_retry initFetch initArrow ((0, 0, "w") : CacheKey)
    .rateLimited 7 rfl
  exact ⟨h.1, h.2.2.1, h.2.2.2.2.1⟩

/-! ## Rate-limit notification behaviour (claim C7) -/

/-- Per-response characterization of the dispatched `wind-rate-limit`
events: `detail: true` for every rate-limited response, `detail: false` for
every response that parses and completes successfully, and nothing
otherwise (non-429 HTTP failures and 2xx responses with unparsable
bodies). -/
theorem handleOM_events (r : HttpResponse) :
    (handleOpenMeteoResponse r).1 =
      (if rateLimitedResp r then [true]
       else if parsedOkResp r then [false]
       else []) := by
  by_cases h429 : r.status = 429
  · simp [handleOpenMeteoResponse, rateLimitedResp, h429]
  · cases hb : r.body with
    | malformed =>
      by_cases hok : respOk r <;>
        simp [handleOpenMeteoResponse, rateLimitedResp, parsedOkResp, h429, hb, hok]
    | nullish =>
      by_cases hok : respOk r <;>
        simp [handleOpenMeteoResponse, rateLimitedResp, parsedOkResp, h429, hb, hok]
    | obj j =>
      by_cases hlf : limitFlag j <;> by_cases hok : respOk r <;>
        simp [handleOpenMeteoResponse, rateLimitedResp, parsedOkResp, h429, hb, hok, hlf]

/-- C7 counterexample: two consecutive successful responses each dispatch a
`detail: false` event, although neither crosses into or out of the
rate-limited condition — the emitted event sequence `[false, false]`
differs from the transition-only sequence `[]` the spec describes, so the
notification is per completed request, not per state transition. -/
theorem C7_per_request_emission_cex :
    emittedDetails [⟨200, .obj ⟨false, none, none⟩⟩, ⟨200, .obj ⟨false, none, none⟩⟩] =
      [false, false] ∧
    specTransitionDetails
      [⟨200, .obj ⟨false, none, none⟩⟩, ⟨200, .obj ⟨false, none, none⟩⟩] = [] ∧
    emittedDetails [⟨200, .obj ⟨false, none, none⟩⟩, ⟨200, .obj ⟨false, none, none⟩⟩] ≠
      specTransitionDetails
        [⟨200, .obj ⟨false, none, none⟩⟩, ⟨200, .obj ⟨false, none, none⟩⟩] := by
  refine ⟨?_, ?_, ?_⟩ <;> decide

/-- C7 (amended): the `wind-rate-limit` notification is emitted per
completed response, independently of any previous state: `detail: true` on
every rate-limited response, `detail: false` on every successfully parsed
response, nothing on other failures — the emission over a request sequence
is the pointwise concatenation of these per-response events, and in
particular it is NOT restricted to transitions of the rate-limited
condition. -/
theorem C7_rate_limit_events_per_response (r : HttpResponse)
    (rs : List HttpResponse) :
    (handleOpenMeteoResponse r).1 =
      (if rateLimitedResp r then [true]
       else if parsedOkResp r then [false]
       else []) ∧
    emittedDetails rs =
      (rs.map (fun x =>
        if rateLimitedResp x then [true]
        else if parsedOkResp x then [false]
        else [])).flatten := by
  refine ⟨handleOM_events r, ?_⟩
  rw [emittedDetails]
  simp only [handleOM_events]

/-! ## Per-key request deduplication (claim C1) -/

theorem keyCount_cons (l : List CacheKey) (x k : CacheKey) :
    keyCount (x :: l) k = keyCount l k + if x = k then 1 else 0 := by
  rw [keyCount, keyCount, List.countP_cons]
  by_cases hx : x = k <;> simp [hx]

theorem keyCount_pos_of_mem {l : List CacheKey} {k : CacheKey} (h : k ∈ l) :
    0 < keyCount l k := by
  rw [keyCount, List.countP_pos]
  exact ⟨k, h, by simp⟩

theorem keyCount_eraseKey_self (l : List CacheKey) (k : CacheKey) (h : k ∈ l) :
    keyCount (eraseKey l k) k + 1 = keyCount l k := by
  induction l with
  | nil => cases h
  | cons x xs ih =>
    rw [eraseKey]
    by_cases hx : x = k
    · rw [if_pos hx, keyCount_cons, if_pos hx]
    · rw [if_neg hx, keyCount_cons, keyCount_cons, if_neg hx]
      have hmem : k ∈ xs := by
        rcases List.mem_cons.mp h with h1 | h1
        · exact absurd h1.symm hx
        · exact h1
      rw [Nat.add_zero, Nat.add_zero]
      exact ih hmem

theorem keyCount_eraseKey_ne (l : List CacheKey) (k k' : CacheKey)
    (hne : k' ≠ k) : keyCount (eraseKey l k) k' = keyCount l k' := by
  induction l with
  | nil => rfl
  | cons x xs ih =>
    rw [eraseKey]
    by_cases hx : x = k
    · rw [if_pos hx, keyCount_cons,
        if_neg (fun hxk : x = k' => hne (hxk ▸ hx : k' = k))]
      omega
    · rw [if_neg hx, keyCount_cons, keyCount_cons, ih]

/-- The central invariant of the point-cache system: the number of
outstanding network requests for a key is 1 exactly when the in-flight map
holds a pending promise for it, and 0 otherwise. -/
def FInv (st : FetchSys) : Prop :=
  ∀ k, keyCount st.active k = if (st.inflight k).isSome then 1 else 0

theorem initFetch_inv : FInv initFetch := by
  intro k
  simp [initFetch, keyCount]

theorem FInv_fetchCall (st : FetchSys) (k : CacheKey) (f : ℕ) (h : FInv st) :
    FInv (fetchCall st k f).1 := by
  rcases hc : st.cache k with _ | s
  · rcases hi : st.inflight k with _ | r
    · have hstep : (fetchCall st k f).1 =
          ⟨st.cache, fun k' => if k' = k then some f else st.inflight k',
           k :: st.active⟩ := by
        rw [fetchCall, hc, hi]
      rw [hstep]
      intro k'
      by_cases hk : k' = k
      · subst hk
        have h0 := h k'
        rw [hi] at h0
        simp only [Option.isSome_none, Bool.false_eq_true, if_false] at h0
        rw [keyCount_cons, if_pos rfl, h0]
        simp
      · rw [keyCount_cons, if_neg (fun hkk : k = k' => hk hkk.symm)]
        have h0 := h k'
        simpa [hk] using h0
    · have hstep : (fetchCall st k f).1 = st := by rw [fetchCall, hc, hi]
      rw [hstep]; exact h
  · have hstep : (fetchCall st k f).1 = st := by rw [fetchCall, hc]
    rw [hstep]; exact h

theorem FInv_completeFetch (st : FetchSys) (k : CacheKey)
    (u : Except FetchErr (Option OMJson)) (h : FInv st) (hk : k ∈ st.active) :
    FInv (completeFetch st k u) := by
  have hone : keyCount st.active k = 1 := by
    have hpos := keyCount_pos_of_mem hk
    have hh := h k
    rcases hhi : st.inflight k with _ | r
    · rw [hhi] at hh; simp at hh; omega
    · rw [hhi] at hh; simp at hh; omega
  have hactive : (completeFetch st k u).active = eraseKey st.active k := by
    rcases hcr : chainResult u with e | s <;> rw [completeFetch, hcr]
  have hinf : ∀ k', (completeFetch st k u).inflight k' =
      if k' = k then none else st.inflight k' := by
    intro k'
    rcases hcr : chainResult u with e | s <;> rw [completeFetch, hcr]
  intro k'
  rw [hactive, hinf k']
  by_cases hkk : k' = k
  · subst hkk
    rw [if_pos rfl]
    have herase := keyCount_eraseKey_self st.active k' hk
    simp only [Option.isSome_none, Bool.false_eq_true, if_false]
    omega
  · rw [if_neg hkk, keyCount_eraseKey_ne st.active k k' hkk]
    exact h k'

theorem FInv_runFetch (evs : List FetchEv) :
    ∀ st st', FInv st → runFetch st evs = some st' → FInv st' := by
  induction evs with
  | nil =>
    intro st st' h hr
    rw [runFetch] at hr
    cases hr
    exact h
  | cons e es ih =>
    intro st st' h hr
    rcases e with ⟨k, f⟩ | ⟨k, u⟩
    · rw [runFetch, fetchStep] at hr
      exact ih _ _ (FInv_fetchCall st k f h) hr
    · rw [runFetch, fetchStep] at hr
      by_cases hmem : k ∈ st.active
      · rw [if_pos hmem] at hr
        exact ih _ _ (FInv_completeFetch st k u h hmem) hr
      · rw [if_neg hmem] at hr
        cases hr

/-- The value a caller of `fetchWindForPoint` eventually receives, given
its call outcome and the settlement `u` of the pending request it awaits
(if any): a cache hit resolves immediately with the cached series; the
issuing caller and every joining caller await the SAME promise, and the
promise chain settles it with `chainResult u` — so they receive the same
result by construction. -/
def awaitResult (o : CallOutcome) (u : Except FetchErr (Option OMJson)) :
    Except FetchErr (List HourlyWindEntry) :=
  match o with
  | .hit s => .ok s
  | .joined _ => chainResult u
  | .issued _ => chainResult u

/-- C1: per-key request deduplication of `fetchWindForPoint`.
(1) Along every valid event sequence from the initial state, at most one
network request is outstanding per cache key at any time.
(2) From any state with neither a cached series nor an in-flight request
for key `k`, a call issues exactly one new network request, and a second
call for `k` arriving before settlement joins that same request (same
promise id, no state change, no second request) — both callers resolve to
the same `chainResult` of the single settlement, success or failure.
(3) Settling the request removes the in-flight marker whether it succeeded
or failed.
(4) If the key still misses the cache after settlement (any failure), a
later call issues a fresh network request — the key is retried. -/
theorem C1_per_key_request_dedup :
    (∀ evs st, runFetch initFetch evs = some st →
      ∀ k, keyCount st.active k ≤ 1) ∧
    (∀ st k f1 f2 (u : Except FetchErr (Option OMJson)),
      st.cache k = none → st.inflight k = none →
      (fetchCall st k f1).2 = .issued f1 ∧
      keyCount (fetchCall st k f1).1.active k = keyCount st.active k + 1 ∧
      (fetchCall (fetchCall st k f1).1 k f2).2 = .joined f1 ∧
      (fetchCall (fetchCall st k f1).1 k f2).1 = (fetchCall st k f1).1 ∧
      awaitResult (fetchCall st k f1).2 u =
        awaitResult (fetchCall (fetchCall st k f1).1 k f2).2 u) ∧
    (∀ st k u, (completeFetch st k u).inflight k = none) ∧
    (∀ st k u f, (completeFetch st k u).cache k = none →
      (fetchCall (completeFetch st k u) k f).2 = .issued f) := by
  refine ⟨?_, ?_, completeFetch_inflight, ?_⟩
  · intro evs st hrun k
    have hinv := FInv_runFetch evs initFetch st initFetch_inv hrun
    rw [hinv k]
    split <;> omega
  · intro st k f1 f2 u hc hi
    have h1 : fetchCall st k f1 =
        (⟨st.cache, fun k' => if k' = k then some f1 else st.inflight k',
          k :: st.active⟩, .issued f1) := by
      rw [fetchCall, hc, hi]
    have h2 : fetchCall (fetchCall st k f1).1 k f2 =
        ((fetchCall st k f1).1, .joined f1) := by
      rw [h1, fetchCall]
      simp [hc]
    refine ⟨by rw [h1], ?_, by rw [h2], by rw [h2], ?_⟩
    · rw [h1, keyCount_cons, if_pos rfl]
    · rw [h2, h1]
      rfl
  · intro st k u f hcn
    rw [fetchCall, hcn, completeFetch_inflight]

/-- Witness for C1: issue-then-join-then-settle on the empty initial
state. -/
theorem C1_per_key_request_dedup_witness :
    keyCount initFetch.active ((0, 0, "c") : CacheKey) ≤ 1 ∧
    (fetchCall initFetch ((0, 0, "c") : CacheKey) 1).2 = .issued 1 ∧
    (fetchCall (fetchCall initFetch ((0, 0, "c") : CacheKey) 1).1
      (0, 0, "c") 2).2 = .joined 1 ∧
    (completeFetch (fetchCall initFetch ((0, 0, "c") : CacheKey) 1).1
      (0, 0, "c") (.error .rateLimited)).inflight (0, 0, "c") = none := by
  have h := C1_per_key_request_dedup
  have h2 := h.2.1 initFetch ((0, 0, "c") : CacheKey) 1 2
    (.error .rateLimited) rfl rfl
  exact ⟨h.1 [] initFetch rfl (0, 0, "c"), h2.1, h2.2.2.1, h.2.2.1 _ _ _⟩

/-! ## Pooled batch fetch: invariants and the C2 claim -/

theorem getElem?_lt_length {α : Type} {l : List α} {w : ℕ} {a : α}
    (h : l[w]? = some a) : w < l.length := by
  rw [List.getElem?_eq_some_iff] at h
  obtain ⟨hw, _⟩ := h
  exact hw

/-- Inductive invariant of the `pooledMap` machine: the results array keeps
its length; the worker list keeps its length; every claimed index is either
being worked on or already carries its final value `f i`; and a retired
worker is proof that all indices were claimed. -/
structure PoolInvariant (n : ℕ) {R : Type} (f : ℕ → R) (wn : ℕ)
    (st : PoolState R) : Prop where
  rlen : st.results.length = n
  wlen : st.workers.length = wn
  cover : ∀ i : ℕ, i < st.next → i < n →
    (∃ w : ℕ, st.workers[w]? = some (.working i)) ∨
      st.results[i]? = some (some (f i))
  retiredNext : ∀ w : ℕ, st.workers[w]? = some .retired → n ≤ st.next

theorem poolInv_step {R : Type} {n wn : ℕ} {f : ℕ → R} {st st' : PoolState R}
    (hstep : PoolStep n f st st') (h : PoolInvariant n f wn st) :
    PoolInvariant n f wn st' := by
  cases hstep with
  | claim w hw hn =>
    have hwlt : w < st.workers.length := getElem?_lt_length hw
    refine ⟨h.rlen, by rw [List.length_set]; exact h.wlen, ?_, ?_⟩
    · intro i hi hin
      have hi2 : i < st.next + 1 := hi
      by_cases hii : i < st.next
      · rcases h.cover i hii hin with ⟨w', hw'⟩ | hres
        · left
          refine ⟨w', ?_⟩
          have hne : w ≠ w' := by
            intro he
            rw [← he, hw] at hw'
            cases hw'
          rw [List.getElem?_set_ne hne]
          exact hw'
        · right; exact hres
      · have hieq : i = st.next := by omega
        subst hieq
        left
        refine ⟨w, ?_⟩
        rw [List.getElem?_set, if_pos rfl, if_pos hwlt]
    · intro w' hw'
      by_cases hww : w = w'
      · subst hww
        rw [List.getElem?_set, if_pos rfl, if_pos hwlt] at hw'
        cases hw'
      · rw [List.getElem?_set_ne hww] at hw'
        have := h.retiredNext w' hw'
        show n ≤ st.next + 1
        omega
  | resolve w i hw =>
    have hwlt : w < st.workers.length := getElem?_lt_length hw
    refine ⟨by rw [List.length_set]; exact h.rlen,
      by rw [List.length_set]; exact h.wlen, ?_, ?_⟩
    · intro i' hi' hin
      by_cases hii : i' = i
      · subst hii
        right
        rw [List.getElem?_set, if_pos rfl, if_pos (by rw [h.rlen]; exact hin)]
      · rcases h.cover i' hi' hin with ⟨w', hw'⟩ | hres
        · by_cases hww : w = w'
          · subst hww
            rw [hw] at hw'
            cases hw' with
            | refl => exact absurd rfl hii
          · left
            refine ⟨w', ?_⟩
            rw [List.getElem?_set_ne hww]
            exact hw'
        · right
          rw [List.getElem?_set_ne (fun he : i = i' => hii he.symm)]
          exact hres
    · intro w' hw'
      by_cases hww : w = w'
      · subst hww
        rw [List.getElem?_set, if_pos rfl, if_pos hwlt] at hw'
        cases hw'
      · rw [List.getElem?_set_ne hww] at hw'
        exact h.retiredNext w' hw'
  | exitLoop w hw hn =>
    have hwlt : w < st.workers.length := getElem?_lt_length hw
    refine ⟨h.rlen, by rw [List.length_set]; exact h.wlen, ?_, ?_⟩
    · intro i hi hin
      rcases h.cover i hi hin with ⟨w', hw'⟩ | hres
      · left
        refine ⟨w', ?_⟩
        have hne : w ≠ w' := by
          intro he
          rw [← he, hw] at hw'
          cases hw'
        rw [List.getElem?_set_ne hne]
        exact hw'
      · right; exact hres
    · intro w' _
      exact hn

theorem poolInv_reach {R : Type} {n wn : ℕ} {f : ℕ → R} {st st' : PoolState R}
    (h : PoolReach n f st st') (hinv : PoolInvariant n f wn st) :
    PoolInvariant n f wn st' := by
  induction h with
  | refl => exact hinv
  | tail hsteps hstep ih => exact poolInv_step hstep ih

theorem poolInit_inv (R : Type) (n c : ℕ) (f : ℕ → R) :
    PoolInvariant n f (min c n) (poolInit R n c) := by
  refine ⟨List.length_replicate n none, List.length_replicate _ _, ?_, ?_⟩
  · intro i hi _
    exact absurd hi (Nat.not_lt_zero i)
  · intro w hw
    have := List.eq_of_mem_replicate (List.getElem?_mem hw)
    cases this

theorem pool_finished_results {R : Type} (n c : ℕ) (f : ℕ → R)
    (st : PoolState R) (hc : 0 < c)
    (hreach : PoolReach n f (poolInit R n c) st) (hfin : PoolFinished st) :
    st.results.length = n ∧ ∀ i : ℕ, i < n → st.results[i]? = some (some (f i)) := by
  have hinv := poolInv_reach hreach (poolInit_inv R n c f)
  refine ⟨hinv.rlen, ?_⟩
  intro i hi
  have hn0 : 0 < n := by omega
  have hwpos : 0 < st.workers.length := by
    rw [hinv.wlen]
    omega
  obtain ⟨w0, hw0⟩ : ∃ w0, st.workers[0]? = some w0 := by
    cases hws : st.workers with
    | nil => rw [hws] at hwpos; exact absurd hwpos (by simp)
    | cons a l => exact ⟨a, by simp⟩
  have hret : w0 = .retired := hfin w0 (List.getElem?_mem hw0)
  have hnn : n ≤ st.next := hinv.retiredNext 0 (by rw [hw0, hret])
  rcases hinv.cover i (by omega) hi with ⟨w, hw⟩ | hres
  · have habs := hfin _ (List.getElem?_mem hw)
    cases habs
  · exact hres

theorem pool_concurrency (n c : ℕ) {R : Type} (f : ℕ → R) (st : PoolState R)
    (hreach : PoolReach n f (poolInit R n c) st) : workingCount st ≤ c := by
  have hinv := poolInv_reach hreach (poolInit_inv R n c f)
  rw [workingCount]
  calc st.workers.countP _ ≤ st.workers.length := List.countP_le_length _
    _ = min c n := hinv.wlen
    _ ≤ c := Nat.min_le_left c n

/-- C2: the batch fetch of `useMultiPointWindData` (`pooledMap` over
`fetchSafe ∘ fetchWindForPoint` with concurrency 3).  `fetchOutcome`
abstracts what each point's `fetchWindForPoint` promise resolves or rejects
with.  Along EVERY scheduling of the worker pool: (a) once all workers have
finished (`Promise.all` resolved), the results array has exactly one slot
per input point and slot `i` holds the outcome for input point `i` —
`some series` for a point whose fetch succeeded and the explicit `none`
("unavailable") marker for a point whose fetch failed (rate-limit
included), so a failing point never aborts the batch and successful points
are always returned in input order; and (b) at every reachable instant at
most `concurrency` fetches are awaited simultaneously. -/
theorem C2_pooled_batch_order_and_null_markers
    (points : List (ℚ × ℚ))
    (fetchOutcome : ℚ × ℚ → Except FetchErr (List HourlyWindEntry))
    (c : ℕ) (hc : 0 < c) (st : PoolState (Option (List HourlyWindEntry)))
    (hreach : PoolReach points.length
      (fun i => fetchSafe (fetchOutcome (points.getD i (0, 0))))
      (poolInit (Option (List HourlyWindEntry)) points.length c) st) :
    (PoolFinished st →
      st.results.length = points.length ∧
      (∀ i : ℕ, i < points.length → st.results[i]? =
        some (some (fetchSafe (fetchOutcome (points.getD i (0, 0)))))) ∧
      (∀ i : ℕ, i < points.length → ∀ e,
        fetchOutcome (points.getD i (0, 0)) = .error e →
        st.results[i]? = some (some none)) ∧
      (∀ i : ℕ, i < points.length → ∀ s,
        fetchOutcome (points.getD i (0, 0)) = .ok s →
        st.results[i]? = some (some (some s)))) ∧
    workingCount st ≤ c := by
  refine ⟨?_, pool_concurrency points.length c _ st hreach⟩
  intro hfin
  obtain ⟨hlen, hslot⟩ := pool_finished_results points.length c _ st hc hreach hfin
  refine ⟨hlen, hslot, ?_, ?_⟩
  · intro i hi e he
    have := hslot i hi
    rw [he] at this
    exact this
  · intro i hi s hs
    have := hslot i hi
    rw [hs] at this
    exact this

/-- Witness for C2: one rate-limited point, concurrency 3, running the
claim-resolve-exit schedule to completion — the single slot holds the
explicit `none` marker and the batch still resolves. -/
theorem C2_pooled_batch_witness :
    (⟨1, [some none], [WStatus.retired]⟩ :
        PoolState (Option (List HourlyWindEntry))).results[0]? =
      some (some none) ∧
    workingCount (⟨1, [some none], [WStatus.retired]⟩ :
        PoolState (Option (List HourlyWindEntry))) ≤ 3 := by
  have step1 : PoolStep 1
      (fun i => fetchSafe ((fun _ : ℚ × ℚ =>
        (.error .rateLimited : Except FetchErr (List HourlyWindEntry)))
        ([((0 : ℚ), (0 : ℚ))].getD i (0, 0))))
      (poolInit (Option (List HourlyWindEntry)) 1 3)
      ⟨1, [none], [.working 0]⟩ :=
    PoolStep.claim _ 0 (by simp [poolInit]) (by simp [poolInit])
  have step2 : PoolStep 1
      (fun i => fetchSafe ((fun _ : ℚ × ℚ =>
        (.error .rateLimited : Except FetchErr (List HourlyWindEntry)))
        ([((0 : ℚ), (0 : ℚ))].getD i (0, 0))))
      (⟨1, [none], [.working 0]⟩ : PoolState (Option (List HourlyWindEntry)))
      ⟨1, [some none], [.ready]⟩ :=
    PoolStep.resolve _ 0 0 (by simp)
  have step3 : PoolStep 1
      (fun i => fetchSafe ((fun _ : ℚ × ℚ =>
        (.error .rateLimited : Except FetchErr (List HourlyWindEntry)))
        ([((0 : ℚ), (0 : ℚ))].getD i (0, 0))))
      (⟨1, [some none], [.ready]⟩ : PoolState (Option (List HourlyWindEntry)))
      ⟨1, [some none], [.retired]⟩ :=
    PoolStep.exitLoop _ 0 (by simp) (by simp)
  have hreach : PoolReach 1
      (fun i => fetchSafe ((fun _ : ℚ × ℚ =>
        (.error .rateLimited : Except FetchErr (List HourlyWindEntry)))
        ([((0 : ℚ), (0 : ℚ))].getD i (0, 0))))
      (poolInit (Option (List HourlyWindEntry)) 1 3)
      ⟨1, [some none], [.retired]⟩ :=
    Relation.ReflTransGen.head step1
      (Relation.ReflTransGen.head step2 (Relation.ReflTransGen.single step3))
  have h := C2_pooled_batch_order_and_null_markers [((0 : ℚ), (0 : ℚ))]
    (fun _ => .error .rateLimited) 3 (by norm_num)
    ⟨1, [some none], [.retired]⟩ hreach
  have hfin : PoolFinished (⟨1, [some none], [.retired]⟩ :
      PoolState (Option (List HourlyWindEntry))) := by
    intro w hw
    simpa using hw
  exact ⟨(h.1 hfin).2.2.1 0 (by norm_num) .rateLimited rfl, h.2⟩

/-! ## Scorer helper lemmas (claims C3 and C10) -/

theorem le_foldl_max_init (l : List ℝ) (a : ℝ) : a ≤ l.foldl max a := by
  induction l generalizing a with
  | nil => exact le_refl a
  | cons x xs ih =>
    rw [List.foldl_cons]
    exact le_trans (le_max_left a x) (ih (max a x))

theorem le_foldl_max_of_mem {l : List ℝ} {x : ℝ} (h : x ∈ l) (a : ℝ) :
    x ≤ l.foldl max a := by
  induction l generalizing a with
  | nil => cases h
  | cons y ys ih =>
    rw [List.foldl_cons]
    rcases List.mem_cons.mp h with rfl | hmem
    · exact le_trans (le_max_right a x) (le_foldl_max_init ys (max a x))
    · exact ih hmem (max a y)

theorem scoreEPS_pos : (0 : ℝ) < scoreEPS := by
  rw [scoreEPS]; norm_num

theorem maxSuffer_pos (raws : List ℝ) : 0 < maxSuffer raws :=
  lt_of_lt_of_le scoreEPS_pos (le_foldl_max_init raws scoreEPS)

theorem getD_mem_or_default {α : Type} (l : List α) (z : α) (i : ℕ) :
    l.getD i z ∈ l ∨ l.getD i z = z := by
  by_cases hi : i < l.length
  · left
    rw [List.getD_eq_getElem l z hi]
    exact List.getElem_mem hi
  · right
    exact List.getD_eq_default l z (by omega)

theorem lookupEntry_mem (allData : List (Option (List HourlyWindEntry)))
    (idx hourIndex : ℕ) (e : HourlyWindEntry)
    (h : lookupEntry allData idx hourIndex = some e) :
    ∃ l, some l ∈ allData ∧ e ∈ l := by
  rw [lookupEntry] at h
  rcases hd : allData[idx]? with _ | od
  · rw [hd] at h; cases h
  · rw [hd] at h
    rcases od with _ | series
    · cases h
    · exact ⟨series, List.getElem?_mem hd, List.getElem?_mem h⟩

theorem segHeadwindRaw_nonneg (samplePoints : List (ℝ × ℝ))
    (allData : List (Option (List HourlyWindEntry))) (hourIndex : ℕ)
    (p1 p2 : ℝ × ℝ) :
    0 ≤ segHeadwindRaw samplePoints allData hourIndex p1 p2 := by
  rw [segHeadwindRaw]
  exact le_max_left 0 _

theorem segHeadwindRaw_zero (samplePoints : List (ℝ × ℝ))
    (allData : List (Option (List HourlyWindEntry))) (hourIndex : ℕ)
    (p1 p2 : ℝ × ℝ)
    (hz : ∀ d ∈ allData, ∀ l, d = some l → ∀ ent ∈ l, ent.speed_kmh = 0) :
    segHeadwindRaw samplePoints allData hourIndex p1 p2 = 0 := by
  rw [segHeadwindRaw]
  rcases hent : segWindEntry samplePoints allData hourIndex p1 p2 with _ | e
  · simp
  · obtain ⟨l, hl, hel⟩ := lookupEntry_mem allData _ hourIndex e hent
    have hspeed : e.speed_kmh = 0 := hz (some l) hl l rfl e hel
    dsimp only
    rw [headwindComponent, hspeed]
    simp

theorem segGradePen_nonneg (elevations : List ℝ) (hasElev : Bool) (i : ℕ)
    (p1 p2 : ℝ × ℝ) : 0 ≤ (segGradePen elevations hasElev i p1 p2).2 := by
  rw [segGradePen]
  dsimp only
  split_ifs with h1 h2 h3
  · have hck : (0 : ℝ) < CLIMB_K := by rw [CLIMB_K]; norm_num
    nlinarith
  · exact le_refl 0
  · exact le_refl 0
  · exact le_refl 0

theorem segGradePen_zero_elev (elevations : List ℝ) (hasElev : Bool) (i : ℕ)
    (p1 p2 : ℝ × ℝ) (hz : ∀ e ∈ elevations, e = (0 : ℝ)) :
    (segGradePen elevations hasElev i p1 p2).2 = 0 := by
  have hgd : ∀ j : ℕ, elevations.getD j 0 = 0 := by
    intro j
    rcases getD_mem_or_default elevations 0 j with hm | hd
    · exact hz _ hm
    · exact hd
  rw [segGradePen]
  dsimp only
  split_ifs with h1 h2 h3
  · exfalso
    rw [hgd, hgd] at h3
    rw [GRADE_CLAMP] at h3
    norm_num at h3
  · rfl
  · rfl
  · rfl

theorem segLoop_length (samplePoints : List (ℝ × ℝ))
    (allData : List (Option (List HourlyWindEntry))) (hourIndex : ℕ)
    (elevations : List ℝ) (hasElev incW : Bool) (counts : EdgeKey → ℕ) :
    ∀ (pairs : List ((ℝ × ℝ) × (ℝ × ℝ))) (i : ℕ) (visited : EdgeKey → ℕ),
      (segLoop samplePoints allData hourIndex elevations hasElev incW counts
        pairs i visited).length = pairs.length := by
  intro pairs
  induction pairs with
  | nil => intro i visited; rfl
  | cons p rest ih =>
    intro i visited
    obtain ⟨p1, p2⟩ := p
    rw [segLoop]
    dsimp only
    rw [List.length_cons, ih, List.length_cons]

/-- Every segment statistic produced by the scoring loop has the
`(wind ? headwindRaw : 0) + climbPenalty` shape for its own index and
endpoints. -/
theorem segLoop_mem_shape (samplePoints : List (ℝ × ℝ))
    (allData : List (Option (List HourlyWindEntry))) (hourIndex : ℕ)
    (elevations : List ℝ) (hasElev incW : Bool) (counts : EdgeKey → ℕ) :
    ∀ (pairs : List ((ℝ × ℝ) × (ℝ × ℝ))) (i : ℕ) (visited : EdgeKey → ℕ),
      ∀ s ∈ segLoop samplePoints allData hourIndex elevations hasElev incW
        counts pairs i visited,
      ∃ (j : ℕ) (p1 p2 : ℝ × ℝ), s.sufferRaw =
        (if incW then segHeadwindRaw samplePoints allData hourIndex p1 p2
         else 0) + (segGradePen elevations hasElev j p1 p2).2 := by
  intro pairs
  induction pairs with
  | nil => intro i visited s hs; cases hs
  | cons p rest ih =>
    intro i visited s hs
    obtain ⟨p1, p2⟩ := p
    rw [segLoop] at hs
    rcases List.mem_cons.mp hs with rfl | htail
    · exact ⟨i, p1, p2, rfl⟩
    · exact ih (i + 1) _ s htail

theorem segLoop_sufferRaw_nonneg (samplePoints : List (ℝ × ℝ))
    (allData : List (Option (List HourlyWindEntry))) (hourIndex : ℕ)
    (elevations : List ℝ) (hasElev incW : Bool) (counts : EdgeKey → ℕ)
    (pairs : List ((ℝ × ℝ) × (ℝ × ℝ))) (i : ℕ) (visited : EdgeKey → ℕ) :
    ∀ s ∈ segLoop samplePoints allData hourIndex elevations hasElev incW
      counts pairs i visited, 0 ≤ s.sufferRaw := by
  intro s hs
  obtain ⟨j, p1, p2, hshape⟩ := segLoop_mem_shape samplePoints allData
    hourIndex elevations hasElev incW counts pairs i visited s hs
  rw [hshape]
  have h1 : 0 ≤ (if incW then
      segHeadwindRaw samplePoints allData hourIndex p1 p2 else 0) := by
    by_cases hw : incW
    · rw [if_pos hw]
      exact segHeadwindRaw_nonneg samplePoints allData hourIndex p1 p2
    · rw [if_neg hw]
  have h2 := segGradePen_nonneg elevations hasElev j p1 p2
  linarith

theorem segLoop_sufferRaw_zero (samplePoints : List (ℝ × ℝ))
    (allData : List (Option (List HourlyWindEntry))) (hourIndex : ℕ)
    (elevations : List ℝ) (hasElev incW : Bool) (counts : EdgeKey → ℕ)
    (pairs : List ((ℝ × ℝ) × (ℝ × ℝ))) (i : ℕ) (visited : EdgeKey → ℕ)
    (hze : ∀ e ∈ elevations, e = (0 : ℝ))
    (hzw : ∀ d ∈ allData, ∀ l, d = some l → ∀ ent ∈ l, ent.speed_kmh = 0) :
    ∀ s ∈ segLoop samplePoints allData hourIndex elevations hasElev incW
      counts pairs i visited, s.sufferRaw = 0 := by
  intro s hs
  obtain ⟨j, p1, p2, hshape⟩ := segLoop_mem_shape samplePoints allData
    hourIndex elevations hasElev incW counts pairs i visited s hs
  rw [hshape, segGradePen_zero_elev elevations hasElev j p1 p2 hze,
    segHeadwindRaw_zero samplePoints allData hourIndex p1 p2 hzw]
  simp

theorem normalizeStats_suffer (stats : List SegStat) :
    (normalizeStats stats).map (fun t => t.sufferRaw) =
      stats.map (fun t => t.sufferRaw) := by
  rw [normalizeStats]
  rw [List.map_map]
  rfl

theorem normalizeStats_facts (stats : List SegStat)
    (hnn : ∀ s ∈ stats, 0 ≤ s.sufferRaw) :
    ∀ seg ∈ normalizeStats stats,
      0 ≤ seg.sufferRaw ∧ 0 ≤ seg.score ∧ seg.score ≤ 1 := by
  intro seg hseg
  rw [normalizeStats] at hseg
  rcases List.mem_map.mp hseg with ⟨s, hsmem, rfl⟩
  dsimp only
  have hnn' := hnn s hsmem
  have hmem : s.sufferRaw ∈ stats.map (fun t => t.sufferRaw) :=
    List.mem_map_of_mem _ hsmem
  have hle : s.sufferRaw ≤ maxSuffer (stats.map (fun t => t.sufferRaw)) := by
    rw [maxSuffer]
    exact le_foldl_max_of_mem hmem scoreEPS
  have hpos := maxSuffer_pos (stats.map (fun t => t.sufferRaw))
  refine ⟨hnn', div_nonneg hnn' (le_of_lt hpos), ?_⟩
  rw [div_le_one hpos]
  exact hle

theorem normalizeStats_score_eq (stats : List SegStat) :
    (normalizeStats stats).map (fun t => t.score) =
      ((normalizeStats stats).map (fun t => t.sufferRaw)).map
        (fun r => r / maxSuffer
          ((normalizeStats stats).map (fun t => t.sufferRaw))) := by
  rw [normalizeStats_suffer]
  rw [normalizeStats]
  rw [List.map_map, List.map_map]
  rfl

theorem normalizeStats_zero (stats : List SegStat)
    (hz : ∀ s ∈ stats, s.sufferRaw = 0) :
    (normalizeStats stats).map (fun t => t.score) =
      List.replicate (normalizeStats stats).length 0 := by
  have hall : ∀ x ∈ (normalizeStats stats).map (fun t => t.score),
      x = (0 : ℝ) := by
    intro x hx
    rcases List.mem_map.mp hx with ⟨seg, hseg, rfl⟩
    rw [normalizeStats] at hseg
    rcases List.mem_map.mp hseg with ⟨s, hsmem, rfl⟩
    dsimp only
    rw [hz s hsmem]
    exact zero_div _
  have := List.eq_replicate_of_mem hall
  rw [List.length_map] at this
  exact this

/-- C10: for every route and every combination of inputs (wind data,
elevation profile, hour index, toggles), every emitted segment's
unnormalized `sufferRaw` is nonnegative (headwind is clamped at 0 and
descents contribute no penalty), and consequently every normalized
per-segment `score` lies in the closed interval `[0, 1]`. -/
theorem C10_suffer_nonneg_scores_in_unit (coords samplePoints : List (ℝ × ℝ))
    (allData : List (Option (List HourlyWindEntry))) (hourIndex : ℕ)
    (elevations : List ℝ) (incE incW : Bool) :
    ∀ seg ∈ buildSegmentCollection coords samplePoints allData hourIndex
      elevations incE incW,
      0 ≤ seg.sufferRaw ∧ 0 ≤ seg.score ∧ seg.score ≤ 1 := by
  intro seg hseg
  rw [buildSegmentCollection] at hseg
  by_cases h2 : coords.length < 2
  · rw [if_pos h2] at hseg
    cases hseg
  · rw [if_neg h2] at hseg
    exact normalizeStats_facts _
      (segLoop_sufferRaw_nonneg _ _ _ _ _ _ _ _ _ _) seg hseg

/-- C3: after all segments are scored, each segment's normalized score is
its `sufferRaw` divided by `maxSuffer` — the maximum of all raw suffer
values floored at the fixed `ε = 1e-6 > 0`; in particular, with uniformly
zero wind speed and zero elevation everywhere, every emitted score is
exactly 0 (the denominator is the positive `ε`, never zero, so the
division is always well-defined). -/
theorem C3_score_normalization (coords samplePoints : List (ℝ × ℝ))
    (allData : List (Option (List HourlyWindEntry))) (hourIndex : ℕ)
    (elevations : List ℝ) (incE incW : Bool) :
    (0 : ℝ) < scoreEPS ∧
    (buildSegmentCollection coords samplePoints allData hourIndex elevations
        incE incW).map (fun t => t.score) =
      ((buildSegmentCollection coords samplePoints allData hourIndex
          elevations incE incW).map (fun t => t.sufferRaw)).map
        (fun r => r / maxSuffer
          ((buildSegmentCollection coords samplePoints allData hourIndex
            elevations incE incW).map (fun t => t.sufferRaw))) ∧
    ((∀ e ∈ elevations, e = (0 : ℝ)) →
      (∀ d ∈ allData, ∀ l, d = some l → ∀ ent ∈ l, ent.speed_kmh = 0) →
      (buildSegmentCollection coords samplePoints allData hourIndex
          elevations incE incW).map (fun t => t.score) =
        List.replicate (buildSegmentCollection coords samplePoints allData
          hourIndex elevations incE incW).length 0) := by
  refine ⟨scoreEPS_pos, ?_, ?_⟩
  · rw [buildSegmentCollection]
    by_cases h2 : coords.length < 2
    · rw [if_pos h2]
      rfl
    · rw [if_neg h2]
      exact normalizeStats_score_eq _
  · intro hze hzw
    rw [buildSegmentCollection]
    by_cases h2 : coords.length < 2
    · rw [if_pos h2]
      rfl
    · rw [if_neg h2]
      exact normalizeStats_zero _
        (segLoop_sufferRaw_zero _ _ _ _ _ _ _ _ _ _ hze hzw)

/-- Witness for C3 on the two-point due-north route with no wind data and
no elevation profile: the single segment's score is exactly 0. -/
theorem C3_score_normalization_witness :
    (buildSegmentCollection [((0 : ℝ), 0), (0, 1)] [] [] 0 [] false
        true).map (fun t => t.score) =
      List.replicate (buildSegmentCollection [((0 : ℝ), 0), (0, 1)] [] [] 0
        [] false true).length 0 :=
  (C3_score_normalization [((0 : ℝ), 0), (0, 1)] [] [] 0 [] false true).2.2
    (by simp) (by simp)

theorem bsc_concrete_two_points :
    buildSegmentCollection [((0 : ℝ), 0), (0, 1)] [] [] 0 [] false true =
      [{ score := 0, headwindRaw := 0, grade := 0, climbPenalty := 0,
         sufferRaw := 0, totalScore := 0, passIndex := 0,
         segA := ((0 : ℝ), 0), segB := ((0 : ℝ), 1) }] := by
  rw [buildSegmentCollection, if_neg (by simp)]
  simp [segLoop, segHeadwindRaw, segWindEntry, lookupEntry, segGradePen,
    normalizeStats, maxSuffer]

/-- Witness for C10 on the two-point route's single emitted segment. -/
theorem C10_suffer_nonneg_scores_in_unit_witness :
    0 ≤ ({ score := 0, headwindRaw := 0, grade := 0, climbPenalty := 0,
           sufferRaw := 0, totalScore := 0, passIndex := 0,
           segA := ((0 : ℝ), 0), segB := ((0 : ℝ), 1) } : SegFeature).sufferRaw ∧
    0 ≤ ({ score := 0, headwindRaw := 0, grade := 0, climbPenalty := 0,
           sufferRaw := 0, totalScore := 0, passIndex := 0,
           segA := ((0 : ℝ), 0), segB := ((0 : ℝ), 1) } : SegFeature).score ∧
    ({ score := 0, headwindRaw := 0, grade := 0, climbPenalty := 0,
       sufferRaw := 0, totalScore := 0, passIndex := 0,
       segA := ((0 : ℝ), 0), segB := ((0 : ℝ), 1) } : SegFeature).score ≤ 1 :=
  C10_suffer_nonneg_scores_in_unit [((0 : ℝ), 0), (0, 1)] [] [] 0 [] false
    true _ (by rw [bsc_concrete_two_points]; exact List.mem_singleton.mpr rfl)
